import Mathlib

/-!
# Verification of the SJOIN reconciliation core (src/modules/core/m_sjoin.c)

This file gives a shallow embedding of the SJOIN channel-state
reconciliation algorithm of ircd-hybrid's `m_sjoin.c` and proves the
testable properties stated in the specification against it.

Machine integers (`unsigned int` flag sets) are modelled as `Nat`; the C
bitwise complement `~mask` on a 32-bit unsigned value is modelled as
`mask ^^^ (2 ^ 32 - 1)`, which agrees with the C semantics for the mask
constants that actually occur.  C strings are modelled as Lean `String`s
and byte-wise `strcmp` as a lexicographic comparison of their character
lists (the two agree on the ASCII data handled here).  Fixed limits
(`IRCD_BUFSIZE`, `MAXMODEPARAMS`, `IDLEN`, `KEYLEN`, ...) come from
headers that are not part of this tree; their conventional values are
used.
-/

/-- `IRCD_BUFSIZE`: the wire line-size budget. Modelled from the spec:
the "network's fixed maximum protocol-line size" (header constant, not in
this tree). -/
def IRCD_BUFSIZE : Nat := 512

/-- `MAXMODEPARAMS`: maximum number of parameters one MODE line may
carry. Modelled from the spec: the "fixed maximum parameter count"
(header constant, not in this tree). -/
def MAXMODEPARAMS : Nat := 4

/-- `IDLEN`: maximum length of an opaque user id. Modelled from the
spec: bound for the "trailing identifier" reserved in the relay budget
(header constant, not in this tree). -/
def IDLEN : Nat := 12

/-- `CMEMBER_STATUS_FLAGS_LEN`: maximum number of privilege sigils in
one member token. Modelled from the spec: `@`, `%`, `+` (header
constant, not in this tree). -/
def CMEMBER_STATUS_FLAGS_LEN : Nat := 3

/-- `KEYLEN`: maximum stored key length (`strlcpy` truncation bound).
Modelled from the spec: "`key` length ≤ a fixed maximum" (header
constant, not in this tree). -/
def KEYLEN : Nat := 24

/-- `CHFL_VOICE` privilege flag bit. Modelled from the spec: the three
privilege flags are distinct bits (channel.h is not in this tree). -/
def CHFL_VOICE : Nat := 1

/-- `CHFL_HALFOP` privilege flag bit. Modelled from the spec (channel.h
is not in this tree). -/
def CHFL_HALFOP : Nat := 2

/-- `CHFL_CHANOP` privilege flag bit. Modelled from the spec (channel.h
is not in this tree). -/
def CHFL_CHANOP : Nat := 4

/-- The C bitwise complement `~x` of a 32-bit unsigned value, as used in
`member->flags &= ~mask`. -/
def cnot32 (x : Nat) : Nat := x ^^^ (2 ^ 32 - 1)

/-- Byte-wise `strcmp(a, b) < 0` on character lists. -/
def charListLt : List Char → List Char → Bool
  | [], [] => false
  | [], _ :: _ => true
  | _ :: _, [] => false
  | a :: as, b :: bs => if a < b then true else if b < a then false else charListLt as bs

/-- `strcmp(a, b) < 0` on the modelled C strings. -/
def strcmpLt (a b : String) : Bool := charListLt a.data b.data

theorem charListLt_irrefl (l : List Char) : charListLt l l = false := by
  induction l with
  | nil => rfl
  | cons a as ih => simp [charListLt, ih]

theorem charListLt_asymm : ∀ a b : List Char, charListLt a b = true → charListLt b a = false
  | [], [], h => by simp [charListLt] at h
  | [], _ :: _, _ => rfl
  | _ :: _, [], h => by simp [charListLt] at h
  | a :: as, b :: bs, h => by
    by_cases hab : a < b
    · have hba : ¬ b < a := by
        intro hba; exact absurd (lt_trans hab hba) (lt_irrefl a)
      simp [charListLt, hba, hab, ne_of_gt hab]
    · by_cases hba : b < a
      · simp [charListLt, hab, hba] at h
      · simp [charListLt, hab, hba] at h ⊢
        exact charListLt_asymm as bs h

theorem strcmpLt_irrefl (s : String) : strcmpLt s s = false := charListLt_irrefl s.data

theorem strcmpLt_asymm {a b : String} (h : strcmpLt a b = true) : strcmpLt b a = false :=
  charListLt_asymm a.data b.data h

theorem strcmpLt_empty_right (s : String) : strcmpLt s "" = false := by
  unfold strcmpLt
  cases hd : s.data with
  | nil => rfl
  | cons c cs => rfl

theorem strcmpLt_empty_left {s : String} (h : s ≠ "") : strcmpLt "" s = true := by
  unfold strcmpLt
  cases hd : s.data with
  | nil => exact absurd (String.ext (by rw [hd])) h
  | cons c cs => rfl

/-- `struct Mode` of channel.h: flag bitset, numeric limit, key. -/
structure Mode where
  mode : Nat
  limit : Nat
  key : String
deriving DecidableEq

/-- One row of `cmode_tab`: a mode letter and its flag bit (`mode = 0`
rows are special-cased letters that carry no flag bit). -/
structure ChanModeEntry where
  letter : Char
  mode : Nat
deriving DecidableEq

/-- Modelled from the spec: the fixed table of recognized simple flag
modes (`cmode_tab` lives in channel_mode.c, which is not in this tree).
The letters/bit values are representative; all proofs that depend on the
table only use its well-formedness (distinct letters, distinct single
bits). -/
def cmode_tab : List ChanModeEntry :=
  [⟨'i', 1⟩, ⟨'m', 2⟩, ⟨'n', 4⟩, ⟨'p', 8⟩, ⟨'s', 16⟩, ⟨'t', 32⟩,
   ⟨'r', 64⟩, ⟨'c', 128⟩, ⟨'C', 256⟩, ⟨'M', 512⟩, ⟨'O', 1024⟩,
   ⟨'R', 2048⟩, ⟨'S', 4096⟩]

/-- `cmode_map` lookup: letter to table row. -/
def cmode_map_find (tab : List ChanModeEntry) (c : Char) : Option ChanModeEntry :=
  tab.find? (fun e => e.letter = c)

/-- The TS arbitration decision of `ms_sjoin` (m_sjoin.c lines 179-194):
given `isnew`, the incoming TS and the existing TS, decide which sides'
modes survive, the new creation timestamp and the TS to relay. -/
structure TsDec where
  keep_our : Bool
  keep_new : Bool
  creation : Nat
  tstosend : Nat
deriving DecidableEq

/-- m_sjoin.c lines 179-194: the five-way timestamp decision. -/
def ts_decide (isnew : Bool) (newts oldts : Nat) : TsDec :=
  if isnew then ⟨true, true, newts, newts⟩
  else if newts = 0 ∨ oldts = 0 then ⟨true, true, 0, 0⟩
  else if newts = oldts then ⟨true, true, oldts, oldts⟩
  else if newts < oldts then ⟨false, true, newts, newts⟩
  else ⟨true, false, oldts, oldts⟩

/-- m_sjoin.c lines 196-206: resolve the incoming mode `mode` against the
existing `oldmode` according to the arbitration outcome.  In the merge
case the flag bits are or-ed, the larger limit wins, and
`if (strcmp(mode.key, oldmode.key) < 0)` the existing key overwrites the
incoming one. -/
def resolve_mode (keep_our keep_new : Bool) (mode oldmode : Mode) : Mode :=
  if keep_new = false then oldmode
  else if keep_our = true then
    let m1 : Mode := { mode with mode := mode.mode ||| oldmode.mode }
    let m2 : Mode := if oldmode.limit > m1.limit then { m1 with limit := oldmode.limit } else m1
    if strcmpLt m2.key oldmode.key then { m2 with key := oldmode.key } else m2
  else mode

/-- The spec's words for the key merge rule, used to compare against the
code: "the lexicographically smaller *non-empty* key (or the only
non-empty key if one side's key is empty)". -/
def smaller_nonempty_key (a b : String) : String :=
  if a = "" then b else if b = "" then a else if strcmpLt a b then a else b

/-- C1 counterexample: on an existing channel with equal non-zero
timestamps (the merge case), incoming key "apple" and existing key
"banana", the code keeps "banana" — the lexicographically *larger*
non-empty key — while the claim as stated demands the smaller one,
"apple". -/
theorem c1_counterexample :
    (resolve_mode (ts_decide false 1000 1000).keep_our
        (ts_decide false 1000 1000).keep_new
        ⟨0, 0, "apple"⟩ ⟨0, 0, "banana"⟩).key = "banana" ∧
    smaller_nonempty_key "apple" "banana" = "apple" ∧
    ("banana" : String) ≠ "apple" := by
  refine ⟨by decide, by decide, by decide⟩

/-- C1 (amended): for every SJOIN merge where both sides' modes are kept
(equal non-zero timestamps, or either timestamp zero on an existing
channel), the resulting flag bits are the union of the two flag sets,
the resulting limit is the maximum of the two limits, and the resulting
key is the lexicographically *larger* of the two keys — which is the
only non-empty key when exactly one side has one, since the empty key
compares smaller than every non-empty key under strcmp. -/
theorem sjoin_merge_mode (newts oldts : Nat) (m o : Mode)
    (hmerge : (newts = oldts ∧ newts ≠ 0) ∨ newts = 0 ∨ oldts = 0) :
    (resolve_mode (ts_decide false newts oldts).keep_our
        (ts_decide false newts oldts).keep_new m o).mode = m.mode ||| o.mode ∧
    (resolve_mode (ts_decide false newts oldts).keep_our
        (ts_decide false newts oldts).keep_new m o).limit = max m.limit o.limit ∧
    (m.key = "" →
      (resolve_mode (ts_decide false newts oldts).keep_our
          (ts_decide false newts oldts).keep_new m o).key = o.key) ∧
    (o.key = "" →
      (resolve_mode (ts_decide false newts oldts).keep_our
          (ts_decide false newts oldts).keep_new m o).key = m.key) ∧
    ((resolve_mode (ts_decide false newts oldts).keep_our
          (ts_decide false newts oldts).keep_new m o).key = m.key ∨
      (resolve_mode (ts_decide false newts oldts).keep_our
          (ts_decide false newts oldts).keep_new m o).key = o.key) ∧
    strcmpLt (resolve_mode (ts_decide false newts oldts).keep_our
        (ts_decide false newts oldts).keep_new m o).key m.key = false ∧
    strcmpLt (resolve_mode (ts_decide false newts oldts).keep_our
        (ts_decide false newts oldts).keep_new m o).key o.key = false := by
  have hko : (ts_decide false newts oldts).keep_our = true := by
    unfold ts_decide
    rcases hmerge with ⟨heq, _⟩ | hz
    · subst heq
      by_cases h0 : newts = 0 <;> simp [h0]
    · rcases hz with h | h <;> simp [h]
  have hkn : (ts_decide false newts oldts).keep_new = true := by
    unfold ts_decide
    rcases hmerge with ⟨heq, _⟩ | hz
    · subst heq
      by_cases h0 : newts = 0 <;> simp [h0]
    · rcases hz with h | h <;> simp [h]
  rw [hko, hkn]
  by_cases hl : o.limit > m.limit
  · by_cases hk : strcmpLt m.key o.key = true
    · have hres : resolve_mode true true m o = ⟨m.mode ||| o.mode, o.limit, o.key⟩ := by
        unfold resolve_mode
        simp [hl, hk]
      rw [hres]
      refine ⟨rfl, (Nat.max_eq_right (Nat.le_of_lt hl)).symm, fun _ => rfl, ?_,
        Or.inr rfl, strcmpLt_asymm hk, strcmpLt_irrefl _⟩
      intro ho
      rw [ho, strcmpLt_empty_right] at hk
      cases hk
    · have hres : resolve_mode true true m o = ⟨m.mode ||| o.mode, o.limit, m.key⟩ := by
        unfold resolve_mode
        simp [hl, hk]
      rw [hres]
      have hkf : strcmpLt m.key o.key = false := by simpa using hk
      refine ⟨rfl, (Nat.max_eq_right (Nat.le_of_lt hl)).symm, ?_, fun _ => rfl,
        Or.inl rfl, strcmpLt_irrefl _, hkf⟩
      intro hm
      by_cases ho : o.key = ""
      · rw [hm, ho]
      · rw [hm] at hk
        exact absurd (strcmpLt_empty_left ho) hk
  · by_cases hk : strcmpLt m.key o.key = true
    · have hres : resolve_mode true true m o = ⟨m.mode ||| o.mode, m.limit, o.key⟩ := by
        unfold resolve_mode
        simp [hl, hk]
      rw [hres]
      refine ⟨rfl, (Nat.max_eq_left (Nat.le_of_not_lt hl)).symm, fun _ => rfl, ?_,
        Or.inr rfl, strcmpLt_asymm hk, strcmpLt_irrefl _⟩
      intro ho
      rw [ho, strcmpLt_empty_right] at hk
      cases hk
    · have hres : resolve_mode true true m o = ⟨m.mode ||| o.mode, m.limit, m.key⟩ := by
        unfold resolve_mode
        simp [hl, hk]
      rw [hres]
      have hkf : strcmpLt m.key o.key = false := by simpa using hk
      refine ⟨rfl, (Nat.max_eq_left (Nat.le_of_not_lt hl)).symm, ?_, fun _ => rfl,
        Or.inl rfl, strcmpLt_irrefl _, hkf⟩
      intro hm
      by_cases ho : o.key = ""
      · rw [hm, ho]
      · rw [hm] at hk
        exact absurd (strcmpLt_empty_left ho) hk

/-- Witness for `sjoin_merge_mode` at a concrete merge input. -/
theorem sjoin_merge_mode_witness :
    ((1000 = 1000 ∧ (1000 : Nat) ≠ 0) ∨ (1000 : Nat) = 0 ∨ (1000 : Nat) = 0) ∧
    (resolve_mode (ts_decide false 1000 1000).keep_our
        (ts_decide false 1000 1000).keep_new
        ⟨3, 50, ""⟩ ⟨5, 20, "secret"⟩).mode = (3 : Nat) ||| 5 :=
  ⟨Or.inl ⟨rfl, by decide⟩,
    (sjoin_merge_mode 1000 1000 ⟨3, 50, ""⟩ ⟨5, 20, "secret"⟩
      (Or.inl ⟨rfl, by decide⟩)).1⟩

/-- A channel membership (`struct Membership`): the member's display
name, its privilege-flag bits, and the per-member ban-cache validity bit
(the cache itself lives outside this model). -/
structure ChanMember where
  name : String
  flags : Nat
  banCached : Bool
deriving DecidableEq

/-- One batched MODE line: the letters following the sign and the
parallel parameter list. -/
structure ModeLine where
  letters : List Char
  params : List String
deriving DecidableEq

/-- Loop body state of `remove_a_mode` (m_sjoin.c lines 620-685): walk
the member list; for each member holding `mask`, clear it, record the
member's name as a parameter and `flag` as a letter, flushing a MODE
line whenever `MAXMODEPARAMS` parameters have accumulated (the C code's
`count` equals the accumulated parameter-list length).  Returns the
updated members and the emitted lines. -/
def ram_go (mask : Nat) (flag : Char) :
    List ChanMember → List ChanMember → List Char → List String →
    List ModeLine → List ChanMember × List ModeLine
  | [], acc, mbuf, lpara, lines =>
      if lpara.length ≠ 0 then (acc, lines ++ [⟨mbuf, lpara⟩]) else (acc, lines)
  | mem :: rest, acc, mbuf, lpara, lines =>
      if mem.flags &&& mask = 0 then
        ram_go mask flag rest (acc ++ [mem]) mbuf lpara lines
      else
        let mem' : ChanMember := { mem with flags := mem.flags &&& cnot32 mask }
        let lpara' := lpara ++ [mem.name]
        let mbuf' := mbuf ++ [flag]
        if lpara'.length ≥ MAXMODEPARAMS then
          ram_go mask flag rest (acc ++ [mem']) [] [] (lines ++ [⟨mbuf', lpara'⟩])
        else
          ram_go mask flag rest (acc ++ [mem']) mbuf' lpara' lines

/-- `remove_a_mode` (m_sjoin.c lines 620-685). -/
def remove_a_mode (members : List ChanMember) (mask : Nat) (flag : Char) :
    List ChanMember × List ModeLine :=
  ram_go mask flag members [] [] [] []

/-- `remove_our_modes` (m_sjoin.c lines 603-609): strip ChanOp, HalfOp
and Voice in three passes. -/
def remove_our_modes (members : List ChanMember) :
    List ChanMember × List ModeLine :=
  let r1 := remove_a_mode members CHFL_CHANOP 'o'
  let r2 := remove_a_mode r1.1 CHFL_HALFOP 'h'
  let r3 := remove_a_mode r2.1 CHFL_VOICE 'v'
  (r3.1, r1.2 ++ r2.2 ++ r3.2)

/-- Clearing a power-of-two bit through the 32-bit complement really
clears it. -/
theorem land_cnot32_land_self (f k : Nat) (hk : k < 32) :
    f &&& cnot32 (2 ^ k) &&& 2 ^ k = 0 := by
  apply Nat.eq_of_testBit_eq
  intro j
  simp only [Nat.testBit_land, Nat.zero_testBit, cnot32, Nat.testBit_xor,
    Nat.testBit_two_pow_sub_one, Nat.testBit_two_pow]
  by_cases hjk : k = j
  · subst hjk
    simp [hk]
  · simp [hjk]

/-- Masking with anything preserves a clear bit set. -/
theorem land_land_zero (f x m0 : Nat) (h : f &&& m0 = 0) :
    f &&& x &&& m0 = 0 := by
  rw [Nat.land_assoc, Nat.land_comm x m0, ← Nat.land_assoc, h, Nat.zero_and]

/-- A value clear of two masks is clear of their union. -/
theorem land_lor_zero (a b c : Nat) (hb : a &&& b = 0) (hc : a &&& c = 0) :
    a &&& (b ||| c) = 0 := by
  apply Nat.eq_of_testBit_eq
  intro j
  have hbj := congrArg (fun n => n.testBit j) hb
  have hcj := congrArg (fun n => n.testBit j) hc
  simp only [Nat.testBit_land, Nat.zero_testBit] at hbj hcj
  simp only [Nat.testBit_land, Nat.testBit_lor, Nat.zero_testBit]
  rcases Bool.eq_false_or_eq_true (a.testBit j) with h | h
  · simp [h] at hbj hcj
    simp [h, hbj, hcj]
  · simp [h]

/-- `ram_go`'s member output is a pointwise map of its input. -/
def ram_memf (mask : Nat) (mem : ChanMember) : ChanMember :=
  if mem.flags &&& mask = 0 then mem else { mem with flags := mem.flags &&& cnot32 mask }

theorem ram_go_members (mask : Nat) (flag : Char) :
    ∀ (ms acc : List ChanMember) (mbuf : List Char) (lpara : List String)
      (lines : List ModeLine),
      (ram_go mask flag ms acc mbuf lpara lines).1 = acc ++ ms.map (ram_memf mask)
  | [], acc, mbuf, lpara, lines => by
      simp only [ram_go, List.map_nil, List.append_nil]
      split <;> rfl
  | mem :: rest, acc, mbuf, lpara, lines => by
      simp only [ram_go, List.map_cons]
      by_cases h : mem.flags &&& mask = 0
      · simp only [h, if_true, ram_memf, reduceIte]
        rw [ram_go_members mask flag rest]
        simp
      · simp only [h, if_false, ram_memf, reduceIte]
        split <;> rw [ram_go_members mask flag rest] <;> simp

theorem remove_a_mode_members (members : List ChanMember) (mask : Nat) (flag : Char) :
    (remove_a_mode members mask flag).1 = members.map (ram_memf mask) := by
  unfold remove_a_mode
  rw [ram_go_members]
  rfl

/-- After `ram_memf mask` (with `mask` a single bit below 2^32), the
mask bit is clear. -/
theorem ram_memf_clears (k : Nat) (hk : k < 32) (mem : ChanMember) :
    (ram_memf (2 ^ k) mem).flags &&& 2 ^ k = 0 := by
  unfold ram_memf
  split
  · assumption
  · exact land_cnot32_land_self mem.flags k hk

/-- `ram_memf` preserves an already-clear bit set. -/
theorem ram_memf_preserves (mask m0 : Nat) (mem : ChanMember)
    (h : mem.flags &&& m0 = 0) : (ram_memf mask mem).flags &&& m0 = 0 := by
  unfold ram_memf
  split
  · assumption
  · exact land_land_zero mem.flags (cnot32 mask) m0 h

theorem ram_memf_name (mask : Nat) (mem : ChanMember) :
    (ram_memf mask mem).name = mem.name := by
  unfold ram_memf
  split <;> rfl

theorem ram_memf_banCached (mask : Nat) (mem : ChanMember) :
    (ram_memf mask mem).banCached = mem.banCached := by
  unfold ram_memf
  split <;> rfl

/-- After `remove_our_modes`, every member's Operator, HalfOperator and
Voice bits are all clear, and names are unchanged. -/
theorem remove_our_modes_clears (members : List ChanMember) :
    (∀ mem ∈ (remove_our_modes members).1,
      mem.flags &&& (CHFL_CHANOP ||| CHFL_HALFOP ||| CHFL_VOICE) = 0) ∧
    (remove_our_modes members).1.map ChanMember.name = members.map ChanMember.name ∧
    (remove_our_modes members).1.map ChanMember.banCached
      = members.map ChanMember.banCached := by
  unfold remove_our_modes
  simp only [remove_a_mode_members, List.map_map]
  constructor
  · intro mem hmem
    simp only [List.mem_map] at hmem
    obtain ⟨m0, _, hm0⟩ := hmem
    subst hm0
    have h4 : CHFL_CHANOP = 2 ^ 2 := by decide
    have h2 : CHFL_HALFOP = 2 ^ 1 := by decide
    have h1 : CHFL_VOICE = 2 ^ 0 := by decide
    have ho : (ram_memf CHFL_CHANOP m0).flags &&& CHFL_CHANOP = 0 := by
      rw [h4]; exact ram_memf_clears 2 (by omega) m0
    have hh : ((ram_memf CHFL_HALFOP) ((ram_memf CHFL_CHANOP) m0)).flags
        &&& CHFL_HALFOP = 0 := by
      rw [h2]; exact ram_memf_clears 1 (by omega) _
    set m2 := (ram_memf CHFL_HALFOP) ((ram_memf CHFL_CHANOP) m0) with hm2
    have hh' : ((ram_memf CHFL_VOICE) m2).flags &&& CHFL_HALFOP = 0 :=
      ram_memf_preserves _ _ _ hh
    have ho' : ((ram_memf CHFL_VOICE) m2).flags &&& CHFL_CHANOP = 0 := by
      apply ram_memf_preserves
      rw [hm2]
      exact ram_memf_preserves _ _ _ ho
    have hv : ((ram_memf CHFL_VOICE) m2).flags &&& CHFL_VOICE = 0 := by
      rw [h1]; exact ram_memf_clears 0 (by omega) m2
    exact land_lor_zero _ _ _ (land_lor_zero _ _ _ ho' hh') hv
  · constructor <;>
      · apply List.map_congr_left
        intro a _
        simp [ram_memf_name, ram_memf_banCached]

/-- Batching invariant of `remove_a_mode`: every emitted line carries as
many letters as parameters, at least one and at most `MAXMODEPARAMS` of
them. -/
theorem ram_go_lines (mask : Nat) (flag : Char) :
    ∀ (ms acc : List ChanMember) (mbuf : List Char) (lpara : List String)
      (lines : List ModeLine),
      mbuf.length = lpara.length → lpara.length < MAXMODEPARAMS →
      (∀ l ∈ lines, l.letters.length = l.params.length ∧
        l.params.length ≤ MAXMODEPARAMS ∧ l.params.length ≠ 0) →
      ∀ l ∈ (ram_go mask flag ms acc mbuf lpara lines).2,
        l.letters.length = l.params.length ∧
        l.params.length ≤ MAXMODEPARAMS ∧ l.params.length ≠ 0
  | [], acc, mbuf, lpara, lines => by
      intro hlen hlt hlines l hl
      simp only [ram_go] at hl
      split at hl
      · rcases List.mem_append.mp hl with h | h
        · exact hlines l h
        · simp only [List.mem_singleton] at h
          subst h
          refine ⟨hlen, ?_, ?_⟩
          · show lpara.length ≤ MAXMODEPARAMS
            omega
          · show lpara.length ≠ 0
            assumption
      · exact hlines l hl
  | mem :: rest, acc, mbuf, lpara, lines => by
      intro hlen hlt hlines l hl
      simp only [ram_go] at hl
      split at hl
      · exact ram_go_lines mask flag rest _ _ _ _ hlen hlt hlines l hl
      · split at hl
        · refine ram_go_lines mask flag rest _ _ _ _ rfl (by simp [MAXMODEPARAMS]) ?_ l hl
          intro l' hl'
          rcases List.mem_append.mp hl' with h | h
          · exact hlines l' h
          · simp only [List.mem_singleton] at h
            subst h
            simp only [List.length_append, List.length_singleton]
            have : lpara.length + 1 ≤ MAXMODEPARAMS := by
              omega
            refine ⟨by omega, this, by omega⟩
        · refine ram_go_lines mask flag rest _ _ _ _ ?_ ?_ hlines l hl
          · simp only [List.length_append, List.length_singleton]
            omega
          · simp only [List.length_append, List.length_singleton] at *
            omega

theorem remove_a_mode_lines (members : List ChanMember) (mask : Nat) (flag : Char) :
    ∀ l ∈ (remove_a_mode members mask flag).2,
      l.letters.length = l.params.length ∧
      l.params.length ≤ MAXMODEPARAMS ∧ l.params.length ≠ 0 := by
  unfold remove_a_mode
  exact ram_go_lines mask flag members [] [] [] [] rfl (by simp [MAXMODEPARAMS])
    (by intro l h; cases h)

theorem remove_our_modes_lines (members : List ChanMember) :
    ∀ l ∈ (remove_our_modes members).2,
      l.letters.length = l.params.length ∧
      l.params.length ≤ MAXMODEPARAMS ∧ l.params.length ≠ 0 := by
  unfold remove_our_modes
  intro l hl
  simp only [List.append_assoc, List.mem_append] at hl
  rcases hl with h | h | h
  · exact remove_a_mode_lines _ _ _ l h
  · exact remove_a_mode_lines _ _ _ l h
  · exact remove_a_mode_lines _ _ _ l h

/-- `struct Ban`: a list-mode entry; `len` is the stored length hint
(set at creation to the combined name/user/host length). -/
structure Ban where
  name : String
  user : String
  host : String
  len : Nat
deriving DecidableEq

/-- Loop body of `remove_ban_list` (m_sjoin.c lines 712-736): iterate
the list (`DLINK_FOREACH_SAFE` iterates the original sequence), flush
the pending line when `MAXMODEPARAMS` entries have accumulated or when
the next entry would push the line past `IRCD_BUFSIZE - 2` bytes, append
the entry, and remove it from the channel's list (`state`).  Returns the
remaining list (always emptied) and the emitted lines, each line given
by its sequence of entries.  The C code's `count` equals the length of
the pending-entry list and `cur_len` the pending line length. -/
def rbl_go (mlen : Nat) :
    List Ban → List Ban → Nat → List Ban → List (List Ban) →
    List Ban × List (List Ban)
  | [], state, _, cur, acc => (state, acc ++ [cur])
  | b :: rest, state, cur_len, cur, acc =>
      let plen := b.len + 4
      if cur.length ≥ MAXMODEPARAMS ∨
          cur_len + 1 + (plen - 1) > IRCD_BUFSIZE - 2 then
        rbl_go mlen rest (state.erase b) (mlen + plen) [b] (acc ++ [cur])
      else
        rbl_go mlen rest (state.erase b) (cur_len + plen) (cur ++ [b]) acc

/-- `remove_ban_list` (m_sjoin.c lines 693-740): no-op on an empty list,
otherwise prune the whole list emitting batched removal lines.  `mlen`
is the length of the prebuilt `:source MODE #channel -` line head. -/
def remove_ban_list (mlen : Nat) (list : List Ban) : List Ban × List (List Ban) :=
  if list.length = 0 then (list, [])
  else rbl_go mlen list list mlen [] []

theorem rbl_go_join (mlen : Nat) :
    ∀ (ms state : List Ban) (cur_len : Nat) (cur : List Ban)
      (acc : List (List Ban)),
      ((rbl_go mlen ms state cur_len cur acc).2).flatten
        = acc.flatten ++ cur ++ ms
  | [], state, cur_len, cur, acc => by
      simp [rbl_go]
  | b :: rest, state, cur_len, cur, acc => by
      simp only [rbl_go]
      split
      · rw [rbl_go_join mlen rest]
        simp
      · rw [rbl_go_join mlen rest]
        simp

theorem rbl_go_state (mlen : Nat) :
    ∀ (ms : List Ban) (cur_len : Nat) (cur : List Ban) (acc : List (List Ban)),
      (rbl_go mlen ms ms cur_len cur acc).1 = []
  | [], cur_len, cur, acc => rfl
  | b :: rest, cur_len, cur, acc => by
      simp only [rbl_go, List.erase_cons_head]
      split
      · exact rbl_go_state mlen rest _ _ _
      · exact rbl_go_state mlen rest _ _ _

/-- C6: pruning a non-empty list-type mode list after a TS-arbitration
loss removes every entry (the final list is empty), emits every entry
exactly once across the removal lines (their concatenation is exactly
the original list), and the total number of removal units across all
emitted lines equals the original list length. -/
theorem remove_ban_list_complete (mlen : Nat) (list : List Ban)
    (hne : list ≠ []) :
    (remove_ban_list mlen list).1 = [] ∧
    ((remove_ban_list mlen list).2).flatten = list ∧
    (((remove_ban_list mlen list).2).map List.length).sum = list.length := by
  unfold remove_ban_list
  have hlen : ¬ list.length = 0 := by
    intro h
    exact hne (List.length_eq_zero.mp h)
  simp only [hlen, if_false, reduceIte]
  refine ⟨rbl_go_state mlen list mlen [] [], ?_, ?_⟩
  · rw [rbl_go_join]
    simp
  · rw [← List.length_flatten, rbl_go_join]
    simp

/-- Witness for `remove_ban_list_complete` on a concrete two-entry list. -/
theorem remove_ban_list_complete_witness :
    ([⟨"a", "b", "c", 3⟩, ⟨"d", "e", "f", 3⟩] : List Ban) ≠ [] ∧
    (remove_ban_list 20 [⟨"a", "b", "c", 3⟩, ⟨"d", "e", "f", 3⟩]).1 = [] :=
  ⟨by decide,
    (remove_ban_list_complete 20 [⟨"a", "b", "c", 3⟩, ⟨"d", "e", "f", 3⟩]
      (by decide)).1⟩

/-- Parameter-count invariant of `remove_ban_list`: no emitted removal
line carries more than `MAXMODEPARAMS` entries. -/
theorem rbl_go_counts (mlen : Nat) :
    ∀ (ms state : List Ban) (cur_len : Nat) (cur : List Ban)
      (acc : List (List Ban)),
      cur.length ≤ MAXMODEPARAMS →
      (∀ l ∈ acc, l.length ≤ MAXMODEPARAMS) →
      ∀ l ∈ (rbl_go mlen ms state cur_len cur acc).2, l.length ≤ MAXMODEPARAMS
  | [], state, cur_len, cur, acc => by
      intro hcur hacc l hl
      simp only [rbl_go] at hl
      rcases List.mem_append.mp hl with h | h
      · exact hacc l h
      · simp only [List.mem_singleton] at h
        subst h
        exact hcur
  | b :: rest, state, cur_len, cur, acc => by
      intro hcur hacc l hl
      simp only [rbl_go] at hl
      split at hl
      · refine rbl_go_counts mlen rest _ _ _ _ (by simp [MAXMODEPARAMS]) ?_ l hl
        intro l' hl'
        rcases List.mem_append.mp hl' with h | h
        · exact hacc l' h
        · simp only [List.mem_singleton] at h
          subst h
          exact hcur
      · rename_i hcond
        push_neg at hcond
        refine rbl_go_counts mlen rest _ _ _ _ ?_ hacc l hl
        simp only [List.length_append, List.length_singleton]
        omega

theorem remove_ban_list_counts (mlen : Nat) (list : List Ban) :
    ∀ l ∈ (remove_ban_list mlen list).2, l.length ≤ MAXMODEPARAMS := by
  unfold remove_ban_list
  split
  · intro l hl
    cases hl
  · exact rbl_go_counts mlen list list mlen [] [] (by simp [MAXMODEPARAMS])
      (by intro l h; cases h)

/-- The tracked `cur_len` of a pending ban-removal line: head length
plus `ban->len + 4` per pending entry. -/
def banLineLen (mlen : Nat) (units : List Ban) : Nat :=
  mlen + (units.map (fun b => b.len + 4)).sum

/-- Byte-length invariant of `remove_ban_list`: provided every single
entry fits a fresh line, every emitted line is non-empty and its
tracked length stays within `IRCD_BUFSIZE - 2`. -/
theorem rbl_go_lens (mlen : Nat) :
    ∀ (ms state : List Ban) (cur_len : Nat) (cur : List Ban)
      (acc : List (List Ban)),
      (∀ b ∈ ms, mlen + (b.len + 4) ≤ IRCD_BUFSIZE - 2) →
      cur_len = banLineLen mlen cur →
      cur_len ≤ IRCD_BUFSIZE - 2 →
      (cur ≠ [] ∨ ms ≠ []) →
      (∀ l ∈ acc, banLineLen mlen l ≤ IRCD_BUFSIZE - 2 ∧ l ≠ []) →
      ∀ l ∈ (rbl_go mlen ms state cur_len cur acc).2,
        banLineLen mlen l ≤ IRCD_BUFSIZE - 2 ∧ l ≠ []
  | [], state, cur_len, cur, acc => by
      intro hfit hcl hle hne hacc l hl
      simp only [rbl_go] at hl
      rcases List.mem_append.mp hl with h | h
      · exact hacc l h
      · simp only [List.mem_singleton] at h
        subst h
        refine ⟨hcl ▸ hle, ?_⟩
        rcases hne with h | h
        · exact h
        · exact absurd rfl h
  | b :: rest, state, cur_len, cur, acc => by
      intro hfit hcl hle hne hacc l hl
      simp only [rbl_go] at hl
      have hb : mlen + (b.len + 4) ≤ IRCD_BUFSIZE - 2 :=
        hfit b (List.mem_cons_self b rest)
      split at hl
      · rename_i hcond
        have hcur_ne : cur ≠ [] := by
          intro hnil
          subst hnil
          rcases hcond with h | h
          · simp [MAXMODEPARAMS] at h
          · rw [hcl] at h
            simp only [banLineLen, List.map_nil, List.sum_nil, Nat.add_zero] at h
            omega
        refine rbl_go_lens mlen rest _ _ _ _
          (fun b' hb' => hfit b' (List.mem_cons_of_mem b hb'))
          (by simp [banLineLen]) hb
          (Or.inl (by simp)) ?_ l hl
        intro l' hl'
        rcases List.mem_append.mp hl' with h | h
        · exact hacc l' h
        · simp only [List.mem_singleton] at h
          subst h
          exact ⟨hcl ▸ hle, hcur_ne⟩
      · rename_i hcond
        push_neg at hcond
        refine rbl_go_lens mlen rest _ _ _ _
          (fun b' hb' => hfit b' (List.mem_cons_of_mem b hb'))
          ?_ ?_ (Or.inl (by simp)) hacc l hl
        · rw [hcl]
          simp [banLineLen]
          omega
        · have := hcond.2
          omega

/-- `name!user@host` rendering of one ban entry. -/
def banMask (b : Ban) : String := b.name ++ "!" ++ b.user ++ "@" ++ b.host

/-- Space-joined parameter rendering, mirroring the `"%s!%s@%s "`
accumulation with the trailing space stripped before sending. -/
def joinSpace : List String → String
  | [] => ""
  | [s] => s
  | s :: s2 :: rest => s ++ " " ++ joinSpace (s2 :: rest)

/-- One emitted ban-removal wire line: the prebuilt head, the repeated
mode letter, and the space-joined masks. -/
def renderBanLine (hdr : String) (c : Char) (units : List Ban) : String :=
  hdr ++ String.mk (List.replicate units.length c) ++ " " ++
    joinSpace (units.map banMask)

theorem joinSpace_length : ∀ l : List String, l ≠ [] →
    (joinSpace l).length = (l.map String.length).sum + (l.length - 1)
  | [], h => absurd rfl h
  | [s], _ => by simp [joinSpace]
  | s :: s2 :: rest, _ => by
      have ih := joinSpace_length (s2 :: rest) (by simp)
      simp only [joinSpace, String.length_append, ih, List.map_cons,
        List.sum_cons, List.length_cons]
      have : (" " : String).length = 1 := rfl
      rw [this]
      omega

theorem banMask_length (b : Ban)
    (h : b.len = b.name.length + b.user.length + b.host.length) :
    (banMask b).length = b.len + 2 := by
  simp only [banMask, String.length_append]
  have h1 : ("!" : String).length = 1 := rfl
  have h2 : ("@" : String).length = 1 := rfl
  rw [h1, h2]
  omega

theorem sum_ban_units (units : List Ban)
    (hlen : ∀ b ∈ units, b.len = b.name.length + b.user.length + b.host.length) :
    ((units.map banMask).map String.length).sum + 2 * units.length
      = (units.map (fun b => b.len + 4)).sum := by
  induction units with
  | nil => simp
  | cons b rest ih =>
      have hb := hlen b (List.mem_cons_self b rest)
      have hr := ih (fun b' hb' => hlen b' (List.mem_cons_of_mem b hb'))
      simp only [List.map_cons, List.sum_cons, List.length_cons,
        banMask_length b hb]
      omega

/-- The rendered ban-removal line length equals the tracked `cur_len`. -/
theorem renderBanLine_length (hdr : String) (c : Char) (units : List Ban)
    (hne : units ≠ [])
    (hlen : ∀ b ∈ units, b.len = b.name.length + b.user.length + b.host.length) :
    (renderBanLine hdr c units).length = banLineLen hdr.length units := by
  have hmne : units.map banMask ≠ [] := by
    intro h
    exact hne (List.map_eq_nil_iff.mp h)
  have hj := joinSpace_length (units.map banMask) hmne
  simp only [renderBanLine, String.length_append, banLineLen, hj,
    List.length_map]
  have hmk : (String.mk (List.replicate units.length c)).length = units.length := by
    show (List.replicate units.length c).length = units.length
    simp
  have hsp : (" " : String).length = 1 := rfl
  rw [hmk, hsp, ← sum_ban_units units hlen]
  have hul : units.length ≥ 1 := by
    cases units with
    | nil => exact absurd rfl hne
    | cons a l => simp
  omega

/-- A mode parameter as written into `parabuf` (`%s ` for keys, `%u `
for the limit). -/
inductive SjParam
  | key : String → SjParam
  | limit : Nat → SjParam
deriving DecidableEq

/-- The rows of `cmode_tab` whose letter is turned off by the delta
(set in `oldmode`, clear in `mode`; m_sjoin.c lines 552-554). -/
def sfm_removed (tab : List ChanModeEntry) (mNew mOld : Nat) : List ChanModeEntry :=
  tab.filter (fun e => decide (e.mode ≠ 0 ∧ e.mode &&& mOld ≠ 0 ∧ e.mode &&& mNew = 0))

/-- The rows of `cmode_tab` whose letter is turned on by the delta
(set in `mode`, clear in `oldmode`; m_sjoin.c lines 571-573). -/
def sfm_added (tab : List ChanModeEntry) (mNew mOld : Nat) : List ChanModeEntry :=
  tab.filter (fun e => decide (e.mode ≠ 0 ∧ e.mode &&& mNew ≠ 0 ∧ e.mode &&& mOld = 0))

/-- The first sign fix-up of `set_final_mode` (m_sjoin.c lines 566-569):
`if (*(mbuf - 1) == '-')` overwrite the lone `-` with `+`, else append
`+`. -/
def sfm_fix1 (mbuf : List Char) : List Char :=
  if mbuf.getLast? = some '-' then mbuf.dropLast ++ ['+'] else mbuf ++ ['+']

/-- The final sign fix-up of `set_final_mode` (m_sjoin.c lines 589-592):
a trailing `+` is stripped. -/
def sfm_fix2 (mbuf : List Char) : List Char :=
  if mbuf.getLast? = some '+' then mbuf.dropLast else mbuf

/-- `set_final_mode` (m_sjoin.c lines 545-593): compute the
`-removed+added` delta between `oldmode` and the (already resolved)
`mode`, with the removed-key parameter preceding the added limit/key
parameters. -/
def set_final_mode (tab : List ChanModeEntry) (m o : Mode) :
    List Char × List SjParam :=
  let mbuf : List Char := '-' :: (sfm_removed tab m.mode o.mode).map ChanModeEntry.letter
  let mbuf := if o.limit ≠ 0 ∧ m.limit = 0 then mbuf ++ ['l'] else mbuf
  let st1 :=
    if o.key ≠ "" ∧ m.key = "" then (mbuf ++ ['k'], [SjParam.key o.key])
    else (mbuf, ([] : List SjParam))
  let mbuf := sfm_fix1 st1.1
  let pbuf := st1.2
  let mbuf := mbuf ++ (sfm_added tab m.mode o.mode).map ChanModeEntry.letter
  let st2 :=
    if m.limit ≠ 0 ∧ o.limit ≠ m.limit then (mbuf ++ ['l'], pbuf ++ [SjParam.limit m.limit])
    else (mbuf, pbuf)
  let st3 :=
    if m.key ≠ "" ∧ o.key ≠ m.key then (st2.1 ++ ['k'], st2.2 ++ [SjParam.key m.key])
    else (st2.1, st2.2)
  (sfm_fix2 st3.1, st3.2)

/-- Modelled from the spec: one step of applying an encoded mode letter
to a mode under the current sign, consuming parameters as required (the
standard channel-mode application semantics; channel_mode.c is outside
this tree). -/
def applyStep (tab : List ChanModeEntry)
    (st : Mode × List SjParam × Bool) (c : Char) :
    Mode × List SjParam × Bool :=
    let m := st.1
    let ps := st.2.1
    let plus := st.2.2
    if c = '+' then (m, ps, true)
    else if c = '-' then (m, ps, false)
    else if c = 'l' then
      if plus then
        match ps with
        | SjParam.limit n :: ps2 => ({ m with limit := n }, ps2, plus)
        | _ => (m, ps, plus)
      else ({ m with limit := 0 }, ps, plus)
    else if c = 'k' then
      match ps with
      | SjParam.key s :: ps2 =>
          (if plus then { m with key := s } else { m with key := "" }, ps2, plus)
      | _ => (m, ps, plus)
    else
      match cmode_map_find tab c with
      | some e =>
          (if plus then { m with mode := m.mode ||| e.mode }
           else { m with mode := m.mode &&& cnot32 e.mode }, ps, plus)
      | none => (m, ps, plus)

/-- Modelled from the spec: apply a whole encoded signed-letter delta
with its parameter stream to a mode, returning the resulting mode, the
unconsumed parameters and the final sign. -/
def applyModeString (tab : List ChanModeEntry) (cs : List Char)
    (ps : List SjParam) (plus : Bool) (m : Mode) : Mode × List SjParam × Bool :=
  cs.foldl (applyStep tab) (m, ps, plus)

/-- Well-formedness of the mode-letter table: every flag bit is a single
bit below 2^32, no flag letter collides with the specially handled
`l`/`k`/sign characters, and letters are pairwise distinct. -/
def TabWF (tab : List ChanModeEntry) : Prop :=
  (∀ e ∈ tab, e.mode ≠ 0 → ∃ k, k < 32 ∧ e.mode = 2 ^ k) ∧
  (∀ e ∈ tab, e.letter ≠ 'l' ∧ e.letter ≠ 'k' ∧ e.letter ≠ '+' ∧ e.letter ≠ '-') ∧
  tab.Pairwise (fun a b => a.letter ≠ b.letter)

/-- The spec's Mode invariant: `flagBits` only contains recognized mode
bits. -/
def ModeWF (tab : List ChanModeEntry) (m : Mode) : Prop :=
  ∀ j, m.mode.testBit j = true → ∃ e ∈ tab, e.mode = 2 ^ j

theorem sfm_removed_self (tab : List ChanModeEntry) (x : Nat) :
    sfm_removed tab x x = [] := by
  unfold sfm_removed
  apply List.filter_eq_nil_iff.mpr
  intro e _
  simp only [decide_eq_true_eq]
  intro h
  exact absurd h.2.2 h.2.1

theorem sfm_added_self (tab : List ChanModeEntry) (x : Nat) :
    sfm_added tab x x = [] := by
  unfold sfm_added
  apply List.filter_eq_nil_iff.mpr
  intro e _
  simp only [decide_eq_true_eq]
  intro h
  exact absurd h.2.2 h.2.1

/-- First half of C5: `set_final_mode(M, M)` yields an empty delta. -/
theorem set_final_mode_self (tab : List ChanModeEntry) (M : Mode) :
    set_final_mode tab M M = ([], []) := by
  unfold set_final_mode
  rw [sfm_removed_self, sfm_added_self]
  have h1 : ¬ (M.limit ≠ 0 ∧ M.limit = 0) := by
    intro h; exact absurd h.2 h.1
  have h2 : ¬ (M.key ≠ "" ∧ M.key = "") := by
    intro h; exact absurd h.2 h.1
  have h3 : ¬ (M.limit ≠ 0 ∧ M.limit ≠ M.limit) := by
    intro h; exact absurd rfl h.2
  have h4 : ¬ (M.key ≠ "" ∧ M.key ≠ M.key) := by
    intro h; exact absurd rfl h.2
  simp [h1, h2, h3, h4]
  rfl

theorem two_pow_land_ne_zero (k x : Nat) :
    (2 ^ k &&& x ≠ 0) ↔ x.testBit k = true := by
  rw [Nat.land_comm, Nat.and_two_pow]
  rcases Bool.eq_false_or_eq_true (x.testBit k) with h | h
  · simp [h]
  · simp [h]

theorem testBit_cnot32 (x j : Nat) :
    (cnot32 x).testBit j = ((x.testBit j).xor (decide (j < 32))) := by
  unfold cnot32
  rw [Nat.testBit_xor, Nat.testBit_two_pow_sub_one]

/-- Flag-bit accumulation of a run of removal letters. -/
def flagFoldMinus (m0 : Nat) (es : List ChanModeEntry) : Nat :=
  es.foldl (fun a e => a &&& cnot32 e.mode) m0

/-- Flag-bit accumulation of a run of addition letters. -/
def flagFoldPlus (m0 : Nat) (es : List ChanModeEntry) : Nat :=
  es.foldl (fun a e => a ||| e.mode) m0

theorem testBit_flagFoldMinus (j : Nat) :
    ∀ (es : List ChanModeEntry) (m0 : Nat),
      (flagFoldMinus m0 es).testBit j
        = (m0.testBit j && es.all (fun e => (cnot32 e.mode).testBit j))
  | [], m0 => by simp [flagFoldMinus]
  | e :: es, m0 => by
      have ih := testBit_flagFoldMinus j es (m0 &&& cnot32 e.mode)
      simp only [flagFoldMinus, List.foldl_cons] at ih ⊢
      rw [ih, Nat.testBit_land, List.all_cons, Bool.and_assoc]

theorem testBit_flagFoldPlus (j : Nat) :
    ∀ (es : List ChanModeEntry) (m0 : Nat),
      (flagFoldPlus m0 es).testBit j
        = (m0.testBit j || es.any (fun e => e.mode.testBit j))
  | [], m0 => by simp [flagFoldPlus]
  | e :: es, m0 => by
      have ih := testBit_flagFoldPlus j es (m0 ||| e.mode)
      simp only [flagFoldPlus, List.foldl_cons] at ih ⊢
      rw [ih, Nat.testBit_lor, List.any_cons, Bool.or_assoc]

theorem sfm_removed_mem {tab : List ChanModeEntry} {mNew mOld : Nat}
    {e : ChanModeEntry} :
    e ∈ sfm_removed tab mNew mOld ↔
      e ∈ tab ∧ e.mode ≠ 0 ∧ e.mode &&& mOld ≠ 0 ∧ e.mode &&& mNew = 0 := by
  unfold sfm_removed
  rw [List.mem_filter]
  simp

theorem sfm_added_mem {tab : List ChanModeEntry} {mNew mOld : Nat}
    {e : ChanModeEntry} :
    e ∈ sfm_added tab mNew mOld ↔
      e ∈ tab ∧ e.mode ≠ 0 ∧ e.mode &&& mNew ≠ 0 ∧ e.mode &&& mOld = 0 := by
  unfold sfm_added
  rw [List.mem_filter]
  simp

/-- The flag-bit part of the round trip: folding the removals then the
additions over the old flag set yields exactly the new flag set, for
flag sets built from the table's bits. -/
theorem flags_roundtrip (tab : List ChanModeEntry) (hwf : TabWF tab)
    (mOld mNew : Nat)
    (hmo : ∀ j, mOld.testBit j = true → ∃ e ∈ tab, e.mode = 2 ^ j)
    (hmn : ∀ j, mNew.testBit j = true → ∃ e ∈ tab, e.mode = 2 ^ j) :
    flagFoldPlus (flagFoldMinus mOld (sfm_removed tab mNew mOld))
      (sfm_added tab mNew mOld) = mNew := by
  apply Nat.eq_of_testBit_eq
  intro j
  rw [testBit_flagFoldPlus, testBit_flagFoldMinus]
  have hpow : ∀ e ∈ tab, e.mode ≠ 0 → ∃ k, k < 32 ∧ e.mode = 2 ^ k := hwf.1
  by_cases hex : ∃ e ∈ tab, e.mode = 2 ^ j
  · obtain ⟨e0, he0tab, he0⟩ := hex
    have hj32 : j < 32 := by
      obtain ⟨k, hk, hke⟩ := hpow e0 he0tab (by rw [he0]; exact (Nat.two_pow_pos j).ne')
      have h2 : (2 : Nat) ^ j = 2 ^ k := by rw [← he0, hke]
      have h3 := Nat.pow_right_injective (le_refl 2) h2
      omega
    have hRbit : ∀ e ∈ sfm_removed tab mNew mOld, e.mode.testBit j = true →
        (mOld.testBit j = true ∧ mNew.testBit j = false) := by
      intro e he hbit
      obtain ⟨hetab, hene, heo, hen⟩ := sfm_removed_mem.mp he
      obtain ⟨k, hk, hke⟩ := hpow e hetab hene
      rw [hke, Nat.testBit_two_pow] at hbit
      have hkj : k = j := by simpa using hbit
      subst hkj
      rw [hke] at heo hen
      constructor
      · exact (two_pow_land_ne_zero k mOld).mp heo
      · rcases Bool.eq_false_or_eq_true (mNew.testBit k) with h | h
        · exact absurd ((two_pow_land_ne_zero k mNew).mpr h) (by simp [hen])
        · exact h
    have hAbit : ∀ e ∈ sfm_added tab mNew mOld, e.mode.testBit j = true →
        (mNew.testBit j = true ∧ mOld.testBit j = false) := by
      intro e he hbit
      obtain ⟨hetab, hene, hen, heo⟩ := sfm_added_mem.mp he
      obtain ⟨k, hk, hke⟩ := hpow e hetab hene
      rw [hke, Nat.testBit_two_pow] at hbit
      have hkj : k = j := by simpa using hbit
      subst hkj
      rw [hke] at heo hen
      constructor
      · exact (two_pow_land_ne_zero k mNew).mp hen
      · rcases Bool.eq_false_or_eq_true (mOld.testBit k) with h | h
        · exact absurd ((two_pow_land_ne_zero k mOld).mpr h) (by simp [heo])
        · exact h
    rcases Bool.eq_false_or_eq_true (mOld.testBit j) with hoj | hoj <;>
      rcases Bool.eq_false_or_eq_true (mNew.testBit j) with hnj | hnj
    · -- both set: nothing touches bit j
      have hR : (sfm_removed tab mNew mOld).all
          (fun e => (cnot32 e.mode).testBit j) = true := by
        rw [List.all_eq_true]
        intro e he
        obtain ⟨hetab, hene, heo, hen⟩ := sfm_removed_mem.mp he
        obtain ⟨k, hk, hke⟩ := hpow e hetab hene
        have hkj : ¬ k = j := by
          intro hkj
          subst hkj
          rw [hke] at hen
          exact absurd hen (by simpa using (two_pow_land_ne_zero k mNew).mpr hnj)
        rw [hke, testBit_cnot32, Nat.testBit_two_pow]
        simp [hkj, hj32]
      simp [hoj, hnj, hR]
    · -- old set, new clear: e0 is removed
      have he0R : e0 ∈ sfm_removed tab mNew mOld := by
        rw [sfm_removed_mem]
        refine ⟨he0tab, by rw [he0]; exact (Nat.two_pow_pos j).ne', ?_, ?_⟩
        · rw [he0]
          exact (two_pow_land_ne_zero j mOld).mpr hoj
        · rw [he0, Nat.land_comm, Nat.and_two_pow, hnj]
          simp
      have hR : (sfm_removed tab mNew mOld).all
          (fun e => (cnot32 e.mode).testBit j) = false := by
        rw [List.all_eq_false]
        refine ⟨e0, he0R, ?_⟩
        rw [he0, testBit_cnot32, Nat.testBit_two_pow]
        simp [hj32]
      have hA : (sfm_added tab mNew mOld).any (fun e => e.mode.testBit j) = false := by
        rw [List.any_eq_false]
        intro e he hbit
        exact absurd (hAbit e he (by simpa using hbit)).1 (by simp [hnj])
      simp [hoj, hnj, hR, hA]
    · -- old clear, new set: e0 is added
      have he0A : e0 ∈ sfm_added tab mNew mOld := by
        rw [sfm_added_mem]
        refine ⟨he0tab, by rw [he0]; exact (Nat.two_pow_pos j).ne', ?_, ?_⟩
        · rw [he0]
          exact (two_pow_land_ne_zero j mNew).mpr hnj
        · rw [he0, Nat.land_comm, Nat.and_two_pow, hoj]
          simp
      have hA : (sfm_added tab mNew mOld).any (fun e => e.mode.testBit j) = true := by
        rw [List.any_eq_true]
        exact ⟨e0, he0A, by rw [he0]; simp [Nat.testBit_two_pow]⟩
      simp [hoj, hnj, hA]
    · -- both clear
      have hA : (sfm_added tab mNew mOld).any (fun e => e.mode.testBit j) = false := by
        rw [List.any_eq_false]
        intro e he
        intro hbit
        exact absurd (hAbit e he (by simpa using hbit)).1 (by simp [hnj])
      simp [hoj, hnj, hA]
  · -- bit j is not a table bit: clear on both sides, untouched
    have hoj : mOld.testBit j = false := by
      rcases Bool.eq_false_or_eq_true (mOld.testBit j) with h | h
      · exact absurd (hmo j h) hex
      · exact h
    have hnj : mNew.testBit j = false := by
      rcases Bool.eq_false_or_eq_true (mNew.testBit j) with h | h
      · exact absurd (hmn j h) hex
      · exact h
    have hA : (sfm_added tab mNew mOld).any (fun e => e.mode.testBit j) = false := by
      rw [List.any_eq_false]
      intro e he hbit
      obtain ⟨hetab, hene, _, _⟩ := sfm_added_mem.mp he
      obtain ⟨k, hk, hke⟩ := hpow e hetab hene
      rw [hke, Nat.testBit_two_pow] at hbit
      have hkj : k = j := by simpa using hbit
      exact hex ⟨e, hetab, by rw [hke, hkj]⟩
    simp [hoj, hnj, hA]

theorem cmode_map_find_self : ∀ (tab : List ChanModeEntry),
    tab.Pairwise (fun a b => a.letter ≠ b.letter) → ∀ e ∈ tab,
    cmode_map_find tab e.letter = some e
  | [], _, e, he => by cases he
  | h :: t, hpw, e, he => by
      rcases List.mem_cons.mp he with heq | ht
      · subst heq
        simp [cmode_map_find]
      · have hp := List.pairwise_cons.mp hpw
        have hne : h.letter ≠ e.letter := hp.1 e ht
        have ih := cmode_map_find_self t hp.2 e ht
        unfold cmode_map_find at ih ⊢
        rw [List.find?_cons_of_neg]
        · exact ih
        · simp [hne]

theorem applyStep_flag_letter (tab : List ChanModeEntry) (hwf : TabWF tab)
    (e : ChanModeEntry) (he : e ∈ tab) (m : Mode) (ps : List SjParam)
    (plus : Bool) :
    applyStep tab (m, ps, plus) e.letter
      = (if plus then { m with mode := m.mode ||| e.mode }
         else { m with mode := m.mode &&& cnot32 e.mode }, ps, plus) := by
  obtain ⟨hl, hk, hp, hm⟩ := hwf.2.1 e he
  unfold applyStep
  rw [if_neg hp, if_neg hm, if_neg hl, if_neg hk,
    cmode_map_find_self tab hwf.2.2 e he]

theorem apply_letters (tab : List ChanModeEntry) (hwf : TabWF tab) :
    ∀ (es : List ChanModeEntry), (∀ e ∈ es, e ∈ tab) →
    ∀ (rest : List Char) (ps : List SjParam) (plus : Bool) (m : Mode),
      applyModeString tab ((es.map ChanModeEntry.letter) ++ rest) ps plus m
        = applyModeString tab rest ps plus
            { m with mode := if plus then flagFoldPlus m.mode es
                             else flagFoldMinus m.mode es }
  | [], _, rest, ps, plus, m => by
      cases plus <;> simp [flagFoldPlus, flagFoldMinus, applyModeString]
  | e :: es, hsub, rest, ps, plus, m => by
      have he := hsub e (List.mem_cons_self e es)
      have hstep := applyStep_flag_letter tab hwf e he m ps plus
      have hcons : ((e :: es).map ChanModeEntry.letter) ++ rest
          = e.letter :: ((es.map ChanModeEntry.letter) ++ rest) := by simp
      rw [hcons]
      unfold applyModeString
      rw [List.foldl_cons, hstep]
      cases plus
      · have ih := apply_letters tab hwf es
          (fun x hx => hsub x (List.mem_cons_of_mem e hx)) rest ps false
          { m with mode := m.mode &&& cnot32 e.mode }
        unfold applyModeString at ih
        simpa [flagFoldMinus] using ih
      · have ih := apply_letters tab hwf es
          (fun x hx => hsub x (List.mem_cons_of_mem e hx)) rest ps true
          { m with mode := m.mode ||| e.mode }
        unfold applyModeString at ih
        simpa [flagFoldPlus] using ih

theorem apply_sign_minus (tab : List ChanModeEntry) (rest : List Char)
    (ps : List SjParam) (plus : Bool) (m : Mode) :
    applyModeString tab ('-' :: rest) ps plus m
      = applyModeString tab rest ps false m := by
  unfold applyModeString
  rw [List.foldl_cons]
  rfl

theorem apply_sign_plus (tab : List ChanModeEntry) (rest : List Char)
    (ps : List SjParam) (plus : Bool) (m : Mode) :
    applyModeString tab ('+' :: rest) ps plus m
      = applyModeString tab rest ps true m := by
  unfold applyModeString
  rw [List.foldl_cons]
  rfl

theorem apply_opt_l_minus (tab : List ChanModeEntry) (c : Prop) [Decidable c]
    (rest : List Char) (ps : List SjParam) (m : Mode) :
    applyModeString tab ((if c then ['l'] else []) ++ rest) ps false m
      = applyModeString tab rest ps false
          { m with limit := if c then 0 else m.limit } := by
  by_cases hc : c <;> simp [hc, applyModeString, applyStep]

theorem apply_opt_k_minus (tab : List ChanModeEntry) (c : Prop) [Decidable c]
    (s : String) (rest : List Char) (ps : List SjParam) (m : Mode) :
    applyModeString tab ((if c then ['k'] else []) ++ rest)
        ((if c then [SjParam.key s] else []) ++ ps) false m
      = applyModeString tab rest ps false
          { m with key := if c then "" else m.key } := by
  by_cases hc : c <;> simp [hc, applyModeString, applyStep]

theorem apply_opt_l_plus (tab : List ChanModeEntry) (c : Prop) [Decidable c]
    (n : Nat) (rest : List Char) (ps : List SjParam) (m : Mode) :
    applyModeString tab ((if c then ['l'] else []) ++ rest)
        ((if c then [SjParam.limit n] else []) ++ ps) true m
      = applyModeString tab rest ps true
          { m with limit := if c then n else m.limit } := by
  by_cases hc : c <;> simp [hc, applyModeString, applyStep]

theorem apply_opt_k_plus (tab : List ChanModeEntry) (c : Prop) [Decidable c]
    (s : String) (rest : List Char) (ps : List SjParam) (m : Mode) :
    applyModeString tab ((if c then ['k'] else []) ++ rest)
        ((if c then [SjParam.key s] else []) ++ ps) true m
      = applyModeString tab rest ps true
          { m with key := if c then s else m.key } := by
  by_cases hc : c <;> simp [hc, applyModeString, applyStep]

theorem not_mem_getLast?_ne {l : List Char} {a : Char} (h : a ∉ l) :
    l.getLast? ≠ some a := by
  intro hg
  exact h (List.mem_of_getLast?_eq_some hg)

theorem applyModeString_append (tab : List ChanModeEntry) (xs ys : List Char)
    (ps : List SjParam) (plus : Bool) (m : Mode) :
    applyModeString tab (xs ++ ys) ps plus m
      = applyModeString tab ys
          (applyModeString tab xs ps plus m).2.1
          (applyModeString tab xs ps plus m).2.2
          (applyModeString tab xs ps plus m).1 := by
  unfold applyModeString
  rw [List.foldl_append]

theorem apply_fixups (tab : List ChanModeEntry) (X Y : List Char)
    (hX : '-' ∉ X) (hY : '+' ∉ Y) (ps : List SjParam) (sgn : Bool) (m : Mode) :
    (applyModeString tab (sfm_fix2 (sfm_fix1 ('-' :: X) ++ Y)) ps sgn m).1
      = (applyModeString tab (('-' :: X) ++ '+' :: Y) ps sgn m).1 := by
  have hfix1 : sfm_fix1 ('-' :: X) = (if X = [] then [] else '-' :: X) ++ ['+'] := by
    unfold sfm_fix1
    cases X with
    | nil => simp
    | cons c cs =>
        rw [List.getLast?_cons_cons, if_neg (not_mem_getLast?_ne hX),
          if_neg (by simp)]
  rw [hfix1]
  cases Y with
  | nil =>
      have h2 : sfm_fix2 (((if X = [] then [] else '-' :: X) ++ ['+']) ++ [])
          = (if X = [] then [] else '-' :: X) := by
        unfold sfm_fix2
        rw [List.append_nil, List.getLast?_concat, if_pos rfl,
          List.dropLast_concat]
      rw [h2]
      by_cases hXe : X = []
      · subst hXe
        simp [applyModeString, applyStep]
      · rw [if_neg hXe]
        rw [applyModeString_append tab ('-' :: X) ['+']]
        simp [applyModeString, applyStep]
  | cons c cs =>
      have h2 : sfm_fix2 (((if X = [] then [] else '-' :: X) ++ ['+']) ++ (c :: cs))
          = ((if X = [] then [] else '-' :: X) ++ ['+']) ++ (c :: cs) := by
        unfold sfm_fix2
        rw [if_neg]
        rw [List.getLast?_append_of_ne_nil _ (by simp)]
        exact not_mem_getLast?_ne hY
      rw [h2]
      by_cases hXe : X = []
      · subst hXe
        rw [if_pos rfl]
        simp only [List.nil_append, List.cons_append]
        rw [apply_sign_minus, apply_sign_plus, apply_sign_plus]
      · rw [if_neg hXe]
        have : (('-' :: X) ++ ['+']) ++ (c :: cs) = ('-' :: X) ++ '+' :: (c :: cs) := by
          simp
        rw [this]

/-- The syntactic shape of `set_final_mode`'s output. -/
theorem set_final_mode_eq (tab : List ChanModeEntry) (m o : Mode) :
    set_final_mode tab m o =
      (sfm_fix2 (sfm_fix1 ('-' :: ((sfm_removed tab m.mode o.mode).map ChanModeEntry.letter
            ++ (if o.limit ≠ 0 ∧ m.limit = 0 then ['l'] else [])
            ++ (if o.key ≠ "" ∧ m.key = "" then ['k'] else [])))
          ++ ((sfm_added tab m.mode o.mode).map ChanModeEntry.letter
            ++ (if m.limit ≠ 0 ∧ o.limit ≠ m.limit then ['l'] else [])
            ++ (if m.key ≠ "" ∧ o.key ≠ m.key then ['k'] else []))),
        (if o.key ≠ "" ∧ m.key = "" then [SjParam.key o.key] else [])
          ++ (if m.limit ≠ 0 ∧ o.limit ≠ m.limit then [SjParam.limit m.limit] else [])
          ++ (if m.key ≠ "" ∧ o.key ≠ m.key then [SjParam.key m.key] else [])) := by
  unfold set_final_mode
  by_cases h1 : o.limit ≠ 0 ∧ m.limit = 0 <;>
    by_cases h2 : o.key ≠ "" ∧ m.key = "" <;>
      by_cases h3 : m.limit ≠ 0 ∧ o.limit ≠ m.limit <;>
        by_cases h4 : m.key ≠ "" ∧ o.key ≠ m.key <;>
          simp [h1, h2, h3, h4, List.append_assoc]

/-- C5: the mode-delta codec round-trips: `set_final_mode(M, M)`
yields an empty delta (no letters, no parameters) for every mode `M`;
and for every pair of well-formed modes, applying the encoded delta
produced by `set_final_mode(newMode, oldMode)` to `oldMode` reproduces
`newMode`. -/
theorem set_final_mode_roundtrip (tab : List ChanModeEntry) (hwf : TabWF tab) :
    (∀ M : Mode, set_final_mode tab M M = ([], [])) ∧
    (∀ o n : Mode, ModeWF tab o → ModeWF tab n →
      (applyModeString tab (set_final_mode tab n o).1 (set_final_mode tab n o).2
        true o).1 = n) := by
  refine ⟨set_final_mode_self tab, ?_⟩
  intro o n hwo hwn
  rw [set_final_mode_eq]
  have hRsub : ∀ e ∈ sfm_removed tab n.mode o.mode, e ∈ tab :=
    fun e he => (sfm_removed_mem.mp he).1
  have hAsub : ∀ e ∈ sfm_added tab n.mode o.mode, e ∈ tab :=
    fun e he => (sfm_added_mem.mp he).1
  have hX : '-' ∉ ((sfm_removed tab n.mode o.mode).map ChanModeEntry.letter
      ++ (if o.limit ≠ 0 ∧ n.limit = 0 then ['l'] else [])
      ++ (if o.key ≠ "" ∧ n.key = "" then ['k'] else [])) := by
    intro hmem
    simp only [List.mem_append, List.mem_map] at hmem
    rcases hmem with (⟨e, he, hel⟩ | h) | h
    · exact (hwf.2.1 e (hRsub e he)).2.2.2 hel
    · revert h
      split
      · intro h
        have := List.mem_singleton.mp h
        exact absurd this (by decide)
      · intro h
        cases h
    · revert h
      split
      · intro h
        have := List.mem_singleton.mp h
        exact absurd this (by decide)
      · intro h
        cases h
  have hY : '+' ∉ ((sfm_added tab n.mode o.mode).map ChanModeEntry.letter
      ++ (if n.limit ≠ 0 ∧ o.limit ≠ n.limit then ['l'] else [])
      ++ (if n.key ≠ "" ∧ o.key ≠ n.key then ['k'] else [])) := by
    intro hmem
    simp only [List.mem_append, List.mem_map] at hmem
    rcases hmem with (⟨e, he, hel⟩ | h) | h
    · exact (hwf.2.1 e (hAsub e he)).2.2.1 hel
    · revert h
      split
      · intro h
        have := List.mem_singleton.mp h
        exact absurd this (by decide)
      · intro h
        cases h
    · revert h
      split
      · intro h
        have := List.mem_singleton.mp h
        exact absurd this (by decide)
      · intro h
        cases h
  rw [apply_fixups tab _ _ hX hY]
  rw [List.cons_append, apply_sign_minus]
  simp only [List.append_assoc]
  rw [apply_letters tab hwf _ hRsub]
  rw [apply_opt_l_minus]
  rw [apply_opt_k_minus]
  rw [apply_sign_plus]
  rw [apply_letters tab hwf _ hAsub]
  rw [apply_opt_l_plus]
  rw [show (if n.key ≠ "" ∧ o.key ≠ n.key then ['k'] else ([] : List Char))
        = (if n.key ≠ "" ∧ o.key ≠ n.key then ['k'] else []) ++ []
      from (List.append_nil _).symm]
  rw [show (if n.key ≠ "" ∧ o.key ≠ n.key then [SjParam.key n.key] else ([] : List SjParam))
        = (if n.key ≠ "" ∧ o.key ≠ n.key then [SjParam.key n.key] else []) ++ []
      from (List.append_nil _).symm]
  rw [apply_opt_k_plus]
  simp only [applyModeString, List.foldl_nil]
  obtain ⟨om, ol, ok⟩ := o
  obtain ⟨nm, nl, nk⟩ := n
  simp only [Mode.mk.injEq]
  refine ⟨?_, ?_, ?_⟩
  · have := flags_roundtrip tab hwf om nm hwo hwn
    simpa [flagFoldMinus, flagFoldPlus] using this
  · split_ifs <;> omega
  · split_ifs with h4 h2
    · rfl
    · exact h2.2.symm
    · push_neg at h4 h2
      by_cases hnk : nk = ""
      · by_cases hok : ok = ""
        · rw [hok, hnk]
        · exact absurd hnk (h2 hok)
      · exact h4 hnk

theorem cmode_tab_wf : TabWF cmode_tab := by
  refine ⟨?_, by decide, by decide⟩
  intro e he _
  fin_cases he
  · exact ⟨0, by omega, rfl⟩
  · exact ⟨1, by omega, rfl⟩
  · exact ⟨2, by omega, rfl⟩
  · exact ⟨3, by omega, rfl⟩
  · exact ⟨4, by omega, rfl⟩
  · exact ⟨5, by omega, rfl⟩
  · exact ⟨6, by omega, rfl⟩
  · exact ⟨7, by omega, rfl⟩
  · exact ⟨8, by omega, rfl⟩
  · exact ⟨9, by omega, rfl⟩
  · exact ⟨10, by omega, rfl⟩
  · exact ⟨11, by omega, rfl⟩
  · exact ⟨12, by omega, rfl⟩

theorem modewf_small (m : Mode) (h : m.mode < 8) : ModeWF cmode_tab m := by
  intro j hj
  have hge := Nat.testBit_implies_ge hj
  have hj3 : j < 3 := by
    by_contra hc
    push_neg at hc
    have : (8 : Nat) ≤ 2 ^ j := by
      calc (8 : Nat) = 2 ^ 3 := by norm_num
      _ ≤ 2 ^ j := Nat.pow_le_pow_right (by omega) hc
    omega
  interval_cases j
  · exact ⟨⟨'i', 1⟩, by decide, rfl⟩
  · exact ⟨⟨'m', 2⟩, by decide, rfl⟩
  · exact ⟨⟨'n', 4⟩, by decide, rfl⟩

/-- Witness for `set_final_mode_roundtrip` at the concrete table and
concrete modes. -/
theorem set_final_mode_roundtrip_witness :
    TabWF cmode_tab ∧
    set_final_mode cmode_tab ⟨3, 10, "zz"⟩ ⟨3, 10, "zz"⟩ = ([], []) ∧
    (applyModeString cmode_tab
        (set_final_mode cmode_tab ⟨5, 0, "new"⟩ ⟨3, 10, "old"⟩).1
        (set_final_mode cmode_tab ⟨5, 0, "new"⟩ ⟨3, 10, "old"⟩).2
        true ⟨3, 10, "old"⟩).1 = ⟨5, 0, "new"⟩ :=
  ⟨cmode_tab_wf,
    (set_final_mode_roundtrip cmode_tab cmode_tab_wf).1 ⟨3, 10, "zz"⟩,
    (set_final_mode_roundtrip cmode_tab cmode_tab_wf).2 ⟨3, 10, "old"⟩
      ⟨5, 0, "new"⟩ (modewf_small _ (by norm_num)) (modewf_small _ (by norm_num))⟩

/-- `NICKLEN`: maximum nickname length. Modelled from the spec (header
constant, not in this tree). -/
def NICKLEN : Nat := 30

/-- `HOSTLEN`: maximum server/host name length. Modelled from the spec
(header constant, not in this tree). -/
def HOSTLEN : Nat := 63

/-- `CHANNELLEN`: maximum channel name length. Modelled from the spec
(header constant, not in this tree). -/
def CHANNELLEN : Nat := 50

/-- A user known to the User Directory (the fields of `struct Client`
this core reads). -/
structure User where
  name : String
  id : String
  fromS : String
  away : String
deriving DecidableEq

/-- Modelled from the spec: `resolveUser` / `find_person` (client.c is
outside this tree): resolve an identifier to a known user, by opaque id
for id-shaped (digit-led) tokens, else by nickname. -/
def find_person (users : List User) (s : String) : Option User :=
  if (s.data.headD 'x').isDigit then users.find? (fun u => u.id = s)
  else users.find? (fun u => u.name = s)

/-- The sigil-stripping do-while of `ms_sjoin` (lines 296-316): strip a
prefix run of `@`, `%`, `+`, or-ing the corresponding flag bits. -/
def parseSigils : List Char → Nat × List Char
  | [] => (0, [])
  | c :: rest =>
      if c = '@' then
        let r := parseSigils rest
        (r.1 ||| CHFL_CHANOP, r.2)
      else if c = '%' then
        let r := parseSigils rest
        (r.1 ||| CHFL_HALFOP, r.2)
      else if c = '+' then
        let r := parseSigils rest
        (r.1 ||| CHFL_VOICE, r.2)
      else (0, c :: rest)

/-- The `uid_prefix` re-encoding of `ms_sjoin` (lines 328-353): when the
new modes are kept, the sigils corresponding to the kept flags, in
`@`, `%`, `+` order; else empty (and the flags are dropped). -/
def uid_prefix_of (keep_new : Bool) (fl : Nat) : String :=
  if keep_new then
    String.mk ((if fl &&& CHFL_CHANOP ≠ 0 then ['@'] else [])
      ++ (if fl &&& CHFL_HALFOP ≠ 0 then ['%'] else [])
      ++ (if fl &&& CHFL_VOICE ≠ 0 then ['+'] else []))
  else ""

/-- One accumulated relay (`uid_buf`) line: the prebuilt header
(`:sid SJOIN ts chan modes params:`) and the appended
`{sigils}{id}` tokens, each followed by one space. -/
structure RelayLine where
  hdr : String
  toks : List String
deriving DecidableEq

/-- The tracked `uid_ptr - uid_buf` length of a relay line. -/
def RelayLine.len (r : RelayLine) : Nat :=
  r.hdr.length + (r.toks.map (fun t => t.length + 1)).sum

/-- The relay line as a string (tokens each followed by a space, as
`sprintf(uid_ptr, "%s%s ", ...)` builds it). -/
def RelayLine.lineStr (r : RelayLine) : String :=
  r.hdr ++ r.toks.foldl (fun a t => a ++ t ++ " ") ""

/-- State of the membership loop of `ms_sjoin` (lines 275-513). -/
structure MLoopSt where
  members : List ChanMember
  relayDone : List RelayLine
  relayCur : RelayLine
  modeLines : List ModeLine
  mletters : List Char
  para : List String
  joins : List User
deriving DecidableEq

/-- Queue one privilege-grant unit (`*mbuf++ = flag; para[pargs++] = name`)
flushing a local MODE line once `MAXMODEPARAMS` parameters have
accumulated (m_sjoin.c lines 385-417 and analogous `h`/`v` blocks). -/
def push_priv (flag : Char) (pname : String) (st : MLoopSt) : MLoopSt :=
  if (st.para ++ [pname]).length ≥ MAXMODEPARAMS then
    { st with modeLines := st.modeLines ++ [⟨st.mletters ++ [flag], st.para ++ [pname]⟩],
              mletters := [], para := [] }
  else
    { st with mletters := st.mletters ++ [flag], para := st.para ++ [pname] }

/-- Relay-buffer step of one loop iteration (m_sjoin.c lines 355-365):
flush the pending relay line when the token would not fit, re-priming
the header from the current privilege-mode buffer, then append the
re-encoded `{sigils}{id}` token. -/
def mstep_relay (keep_new : Bool) (fl0 : Nat) (u : User)
    (mkHdr : List Char → String) (st : MLoopSt) : MLoopSt :=
  if st.relayCur.len + (u.id.length + (uid_prefix_of keep_new fl0).length)
      > IRCD_BUFSIZE - 2 then
    { st with relayDone := st.relayDone ++ [st.relayCur],
              relayCur := ⟨mkHdr st.mletters, [uid_prefix_of keep_new fl0 ++ u.id]⟩ }
  else
    { st with relayCur := ⟨st.relayCur.hdr,
        st.relayCur.toks ++ [uid_prefix_of keep_new fl0 ++ u.id]⟩ }

/-- Join step of one loop iteration (m_sjoin.c lines 367-383): add the
user as a member with the resolved flags if not yet present. -/
def mstep_join (fl : Nat) (u : User) (st : MLoopSt) : MLoopSt :=
  if (st.members.map ChanMember.name).contains u.name then st
  else { st with members := st.members ++ [⟨u.name, fl, false⟩],
                 joins := st.joins ++ [u] }

/-- Privilege-grant queuing for one flag (m_sjoin.c lines 385-418 and
the analogous `h`/`v` blocks). -/
def mstep_priv_one (mask : Nat) (flag : Char) (fl : Nat) (uname : String)
    (st : MLoopSt) : MLoopSt :=
  if fl &&& mask ≠ 0 then push_priv flag uname st else st

/-- The three privilege-grant blocks in source order `o`, `h`, `v`. -/
def mstep_priv (fl : Nat) (uname : String) (st : MLoopSt) : MLoopSt :=
  mstep_priv_one CHFL_VOICE 'v' fl uname
    (mstep_priv_one CHFL_HALFOP 'h' fl uname
      (mstep_priv_one CHFL_CHANOP 'o' fl uname st))

/-- One iteration of the membership loop (m_sjoin.c lines 291-488):
parse sigils, resolve the identifier, skip unresolved or wrong-origin
users, re-encode the token into the relay buffer (flushing first when it
would not fit), join the user if not yet a member, and queue the
privilege-grant units. -/
def mstep (users : List User) (srcFrom : String) (keep_new : Bool)
    (mkHdr : List Char → String) (st : MLoopSt) (tok : String) : MLoopSt :=
  match find_person users (String.mk (parseSigils tok.data).2) with
  | none => st
  | some u =>
    if u.fromS ≠ srcFrom then st
    else
      mstep_priv (if keep_new then (parseSigils tok.data).1 else 0) u.name
        (mstep_join (if keep_new then (parseSigils tok.data).1 else 0) u
          (mstep_relay keep_new (parseSigils tok.data).1 u mkHdr st))

/-- The whole membership loop. -/
def processMembers (users : List User) (srcFrom : String) (keep_new : Bool)
    (mkHdr : List Char → String) (toks : List String) (st0 : MLoopSt) : MLoopSt :=
  toks.foldl (mstep users srcFrom keep_new mkHdr) st0

/-- Split a character list on spaces. -/
def splitSpace : List Char → List Char → List String
  | [], cur => [String.mk cur.reverse]
  | c :: rest, cur =>
      if c = ' ' then String.mk cur.reverse :: splitSpace rest []
      else splitSpace rest (c :: cur)

/-- The member-list tokenizer: space-separated tokens, empty runs
skipped (m_sjoin.c lines 278-289 and 474-487). -/
def tokenize (s : String) : List String :=
  (splitSpace s.data []).filter (fun t => t ≠ "")

/-- What one member token contributes to the relay stream, if accepted. -/
def accepted_tok (users : List User) (srcFrom : String) (keep_new : Bool)
    (tok : String) : Option String :=
  let pr := parseSigils tok.data
  match find_person users (String.mk pr.2) with
  | none => none
  | some u =>
      if u.fromS ≠ srcFrom then none
      else some (uid_prefix_of keep_new pr.1 ++ u.id)

theorem relayLine_len_append (hdr : String) (toks : List String) (t : String) :
    (RelayLine.mk hdr (toks ++ [t])).len = (RelayLine.mk hdr toks).len + (t.length + 1) := by
  simp [RelayLine.len]
  omega

theorem uid_prefix_length (keep_new : Bool) (fl : Nat) :
    (uid_prefix_of keep_new fl).length ≤ CMEMBER_STATUS_FLAGS_LEN := by
  unfold uid_prefix_of
  cases keep_new
  · simp [CMEMBER_STATUS_FLAGS_LEN]
  · simp only [if_true, reduceIte]
    show (List.length _) ≤ CMEMBER_STATUS_FLAGS_LEN
    split_ifs <;> simp [CMEMBER_STATUS_FLAGS_LEN]

/-- `push_priv` does not touch the relay buffers, members or joins. -/
theorem push_priv_frame (flag : Char) (pname : String) (st : MLoopSt) :
    (push_priv flag pname st).relayDone = st.relayDone ∧
    (push_priv flag pname st).relayCur = st.relayCur ∧
    (push_priv flag pname st).members = st.members ∧
    (push_priv flag pname st).joins = st.joins := by
  unfold push_priv
  split <;> exact ⟨rfl, rfl, rfl, rfl⟩

/-- The batching invariant carried through the membership loop. -/
structure MInv (nickMax : Nat) (st : MLoopSt) : Prop where
  paraLt : st.para.length < MAXMODEPARAMS
  lettersEq : st.mletters.length = st.para.length
  curLen : st.relayCur.len ≤ IRCD_BUFSIZE - 1
  doneLen : ∀ l ∈ st.relayDone, l.len ≤ IRCD_BUFSIZE - 1
  modeOk : ∀ l ∈ st.modeLines, l.letters.length = l.params.length ∧
    l.params.length ≤ MAXMODEPARAMS ∧ l.params.length ≠ 0
  paraNames : ∀ p ∈ st.para, p.length ≤ nickMax
  modeNames : ∀ l ∈ st.modeLines, ∀ p ∈ l.params, p.length ≤ nickMax

theorem push_priv_inv (nickMax : Nat) (flag : Char) (pname : String)
    (st : MLoopSt) (hp : pname.length ≤ nickMax) (hinv : MInv nickMax st) :
    MInv nickMax (push_priv flag pname st) := by
  unfold push_priv
  split
  · constructor
    · simp [MAXMODEPARAMS]
    · rfl
    · exact hinv.curLen
    · exact hinv.doneLen
    · intro l hl
      rcases List.mem_append.mp hl with h | h
      · exact hinv.modeOk l h
      · simp only [List.mem_singleton] at h
        subst h
        refine ⟨by simp [hinv.lettersEq], ?_, by simp⟩
        show (st.para ++ [pname]).length ≤ MAXMODEPARAMS
        have := hinv.paraLt
        simp only [List.length_append, List.length_singleton]
        omega
    · intro p hp'
      cases hp'
    · intro l hl
      rcases List.mem_append.mp hl with h | h
      · exact hinv.modeNames l h
      · simp only [List.mem_singleton] at h
        subst h
        intro p hp'
        rcases List.mem_append.mp hp' with h' | h'
        · exact hinv.paraNames p h'
        · simp only [List.mem_singleton] at h'
          subst h'
          exact hp
  · rename_i hlt
    push_neg at hlt
    constructor
    · simpa using hlt
    · simp [hinv.lettersEq]
    · exact hinv.curLen
    · exact hinv.doneLen
    · exact hinv.modeOk
    · intro p hp'
      rcases List.mem_append.mp hp' with h' | h'
      · exact hinv.paraNames p h'
      · simp only [List.mem_singleton] at h'
        subst h'
        exact hp
    · exact hinv.modeNames

theorem mstep_relay_inv (keep_new : Bool) (fl0 : Nat) (u : User)
    (mkHdr : List Char → String) (nickMax : Nat)
    (hulen : u.id.length ≤ IDLEN)
    (hmk : ∀ ls : List Char, ls.length < MAXMODEPARAMS →
      (mkHdr ls).length + (IDLEN + CMEMBER_STATUS_FLAGS_LEN) ≤ IRCD_BUFSIZE - 2)
    (st : MLoopSt) (hinv : MInv nickMax st) :
    MInv nickMax (mstep_relay keep_new fl0 u mkHdr st) := by
  have hpfx := uid_prefix_length keep_new fl0
  have hlen : (uid_prefix_of keep_new fl0 ++ u.id).length
      = (uid_prefix_of keep_new fl0).length + u.id.length := String.length_append _ _
  unfold mstep_relay
  split
  · rename_i hflush
    refine ⟨hinv.paraLt, hinv.lettersEq, ?_, ?_, hinv.modeOk, hinv.paraNames,
      hinv.modeNames⟩
    · have hh := hmk st.mletters (hinv.lettersEq ▸ hinv.paraLt)
      simp only [RelayLine.len, List.map_cons, List.map_nil, List.sum_cons,
        List.sum_nil]
      simp only [IDLEN, CMEMBER_STATUS_FLAGS_LEN, IRCD_BUFSIZE] at hh hpfx hulen ⊢
      omega
    · intro l hl
      rcases List.mem_append.mp hl with h | h
      · exact hinv.doneLen l h
      · simp only [List.mem_singleton] at h
        subst h
        exact hinv.curLen
  · rename_i hfit
    push_neg at hfit
    refine ⟨hinv.paraLt, hinv.lettersEq, ?_, hinv.doneLen, hinv.modeOk,
      hinv.paraNames, hinv.modeNames⟩
    have := relayLine_len_append st.relayCur.hdr st.relayCur.toks
      (uid_prefix_of keep_new fl0 ++ u.id)
    simp only [RelayLine.len] at this hfit ⊢
    simp only [IRCD_BUFSIZE] at hfit ⊢
    omega

theorem mstep_join_inv (fl : Nat) (u : User) (nickMax : Nat) (st : MLoopSt)
    (hinv : MInv nickMax st) : MInv nickMax (mstep_join fl u st) := by
  unfold mstep_join
  split
  · exact hinv
  · exact ⟨hinv.paraLt, hinv.lettersEq, hinv.curLen, hinv.doneLen, hinv.modeOk,
      hinv.paraNames, hinv.modeNames⟩

theorem mstep_priv_one_inv (mask : Nat) (flag : Char) (fl : Nat)
    (uname : String) (nickMax : Nat) (st : MLoopSt)
    (hn : uname.length ≤ nickMax) (hinv : MInv nickMax st) :
    MInv nickMax (mstep_priv_one mask flag fl uname st) := by
  unfold mstep_priv_one
  split
  · exact push_priv_inv nickMax flag uname st hn hinv
  · exact hinv

theorem mstep_priv_inv (fl : Nat) (uname : String) (nickMax : Nat)
    (st : MLoopSt) (hn : uname.length ≤ nickMax) (hinv : MInv nickMax st) :
    MInv nickMax (mstep_priv fl uname st) :=
  mstep_priv_one_inv _ _ _ _ _ _ hn
    (mstep_priv_one_inv _ _ _ _ _ _ hn
      (mstep_priv_one_inv _ _ _ _ _ _ hn hinv))

theorem mstep_inv (users : List User) (srcFrom : String) (keep_new : Bool)
    (mkHdr : List Char → String) (nickMax : Nat)
    (hid : ∀ u ∈ users, u.id.length ≤ IDLEN)
    (hnick : ∀ u ∈ users, u.name.length ≤ nickMax)
    (hmk : ∀ ls : List Char, ls.length < MAXMODEPARAMS →
      (mkHdr ls).length + (IDLEN + CMEMBER_STATUS_FLAGS_LEN) ≤ IRCD_BUFSIZE - 2)
    (st : MLoopSt) (tok : String) (hinv : MInv nickMax st) :
    MInv nickMax (mstep users srcFrom keep_new mkHdr st tok) := by
  unfold mstep
  split
  · exact hinv
  · rename_i u hfp
    have humem : u ∈ users := by
      unfold find_person at hfp
      split at hfp
      · exact List.mem_of_find?_eq_some hfp
      · exact List.mem_of_find?_eq_some hfp
    split
    · exact hinv
    · exact mstep_priv_inv _ _ _ _ (hnick u humem)
        (mstep_join_inv _ _ _ _
          (mstep_relay_inv _ _ _ _ _ (hid u humem) hmk _ hinv))

theorem processMembers_inv (users : List User) (srcFrom : String)
    (keep_new : Bool) (mkHdr : List Char → String) (nickMax : Nat)
    (hid : ∀ u ∈ users, u.id.length ≤ IDLEN)
    (hnick : ∀ u ∈ users, u.name.length ≤ nickMax)
    (hmk : ∀ ls : List Char, ls.length < MAXMODEPARAMS →
      (mkHdr ls).length + (IDLEN + CMEMBER_STATUS_FLAGS_LEN) ≤ IRCD_BUFSIZE - 2) :
    ∀ (toks : List String) (st0 : MLoopSt), MInv nickMax st0 →
      MInv nickMax (processMembers users srcFrom keep_new mkHdr toks st0)
  | [], st0, h0 => h0
  | tok :: toks, st0, h0 =>
      processMembers_inv users srcFrom keep_new mkHdr nickMax hid hnick hmk toks
        (mstep users srcFrom keep_new mkHdr st0 tok)
        (mstep_inv users srcFrom keep_new mkHdr nickMax hid hnick hmk st0 tok h0)

theorem mstep_relay_frame (keep_new : Bool) (fl0 : Nat) (u : User)
    (mkHdr : List Char → String) (st : MLoopSt) :
    (mstep_relay keep_new fl0 u mkHdr st).members = st.members ∧
    (mstep_relay keep_new fl0 u mkHdr st).joins = st.joins ∧
    (mstep_relay keep_new fl0 u mkHdr st).modeLines = st.modeLines ∧
    (mstep_relay keep_new fl0 u mkHdr st).mletters = st.mletters ∧
    (mstep_relay keep_new fl0 u mkHdr st).para = st.para := by
  unfold mstep_relay
  split <;> exact ⟨rfl, rfl, rfl, rfl, rfl⟩

theorem mstep_join_frame (fl : Nat) (u : User) (st : MLoopSt) :
    (mstep_join fl u st).relayDone = st.relayDone ∧
    (mstep_join fl u st).relayCur = st.relayCur ∧
    (mstep_join fl u st).modeLines = st.modeLines ∧
    (mstep_join fl u st).mletters = st.mletters ∧
    (mstep_join fl u st).para = st.para := by
  unfold mstep_join
  split <;> exact ⟨rfl, rfl, rfl, rfl, rfl⟩

theorem mstep_priv_one_frame (mask : Nat) (flag : Char) (fl : Nat)
    (uname : String) (st : MLoopSt) :
    (mstep_priv_one mask flag fl uname st).relayDone = st.relayDone ∧
    (mstep_priv_one mask flag fl uname st).relayCur = st.relayCur ∧
    (mstep_priv_one mask flag fl uname st).members = st.members ∧
    (mstep_priv_one mask flag fl uname st).joins = st.joins := by
  unfold mstep_priv_one
  split
  · exact push_priv_frame flag uname st
  · exact ⟨rfl, rfl, rfl, rfl⟩

theorem mstep_priv_frame (fl : Nat) (uname : String) (st : MLoopSt) :
    (mstep_priv fl uname st).relayDone = st.relayDone ∧
    (mstep_priv fl uname st).relayCur = st.relayCur ∧
    (mstep_priv fl uname st).members = st.members ∧
    (mstep_priv fl uname st).joins = st.joins := by
  unfold mstep_priv
  have h1 := mstep_priv_one_frame CHFL_CHANOP 'o' fl uname st
  have h2 := mstep_priv_one_frame CHFL_HALFOP 'h' fl uname
    (mstep_priv_one CHFL_CHANOP 'o' fl uname st)
  have h3 := mstep_priv_one_frame CHFL_VOICE 'v' fl uname
    (mstep_priv_one CHFL_HALFOP 'h' fl uname
      (mstep_priv_one CHFL_CHANOP 'o' fl uname st))
  refine ⟨?_, ?_, ?_, ?_⟩
  · rw [h3.1, h2.1, h1.1]
  · rw [h3.2.1, h2.2.1, h1.2.1]
  · rw [h3.2.2.1, h2.2.2.1, h1.2.2.1]
  · rw [h3.2.2.2, h2.2.2.2, h1.2.2.2]

/-- One loop iteration contributes exactly its accepted token (if any)
to the relay stream, splitting only between tokens. -/
theorem mstep_toks (users : List User) (srcFrom : String) (keep_new : Bool)
    (mkHdr : List Char → String) (st : MLoopSt) (tok : String) :
    ((mstep users srcFrom keep_new mkHdr st tok).relayDone.map RelayLine.toks).flatten
        ++ (mstep users srcFrom keep_new mkHdr st tok).relayCur.toks
      = (st.relayDone.map RelayLine.toks).flatten ++ st.relayCur.toks
        ++ (accepted_tok users srcFrom keep_new tok).toList := by
  unfold mstep accepted_tok
  split
  · rename_i heq
    simp [heq]
  · rename_i u hfp
    split
    · rename_i hne
      simp [hfp, hne]
    · rename_i hne
      have he : u.fromS = srcFrom := not_not.mp hne
      have hpf := mstep_priv_frame (if keep_new then (parseSigils tok.data).1 else 0)
        u.name (mstep_join (if keep_new then (parseSigils tok.data).1 else 0) u
          (mstep_relay keep_new (parseSigils tok.data).1 u mkHdr st))
      have hjf := mstep_join_frame (if keep_new then (parseSigils tok.data).1 else 0)
        u (mstep_relay keep_new (parseSigils tok.data).1 u mkHdr st)
      rw [hpf.1, hpf.2.1, hjf.1, hjf.2.1]
      unfold mstep_relay
      split
      · simp [hfp, he]
      · simp [hfp, he]

/-- The whole loop's relay stream is the prior stream plus exactly the
accepted tokens, in order, each token whole. -/
theorem processMembers_toks (users : List User) (srcFrom : String)
    (keep_new : Bool) (mkHdr : List Char → String) :
    ∀ (toks : List String) (st0 : MLoopSt),
      ((processMembers users srcFrom keep_new mkHdr toks st0).relayDone.map
          RelayLine.toks).flatten
          ++ (processMembers users srcFrom keep_new mkHdr toks st0).relayCur.toks
        = (st0.relayDone.map RelayLine.toks).flatten ++ st0.relayCur.toks
          ++ toks.filterMap (accepted_tok users srcFrom keep_new)
  | [], st0 => by simp [processMembers]
  | tok :: toks, st0 => by
      have ih := processMembers_toks users srcFrom keep_new mkHdr toks
        (mstep users srcFrom keep_new mkHdr st0 tok)
      have hstep := mstep_toks users srcFrom keep_new mkHdr st0 tok
      have hcons : processMembers users srcFrom keep_new mkHdr (tok :: toks) st0
          = processMembers users srcFrom keep_new mkHdr toks
              (mstep users srcFrom keep_new mkHdr st0 tok) := rfl
      rw [hcons, ih, hstep, List.filterMap_cons]
      cases accepted_tok users srcFrom keep_new tok <;> simp

/-- One loop iteration only appends members, never touches existing
ones; an appended member's name was not previously present, and it joins
unprivileged when the new modes are discarded. -/
theorem mstep_members (users : List User) (srcFrom : String) (keep_new : Bool)
    (mkHdr : List Char → String) (st : MLoopSt) (tok : String) :
    ∃ d : List ChanMember,
      (mstep users srcFrom keep_new mkHdr st tok).members = st.members ++ d ∧
      (∀ m ∈ d, m.name ∉ st.members.map ChanMember.name) ∧
      (keep_new = false → ∀ m ∈ d, m.flags = 0) := by
  unfold mstep
  split
  · exact ⟨[], by simp, by simp, by simp⟩
  · rename_i u hfp
    split
    · exact ⟨[], by simp, by simp, by simp⟩
    · have hpf := mstep_priv_frame (if keep_new then (parseSigils tok.data).1 else 0)
        u.name (mstep_join (if keep_new then (parseSigils tok.data).1 else 0) u
          (mstep_relay keep_new (parseSigils tok.data).1 u mkHdr st))
      have hrf := mstep_relay_frame keep_new (parseSigils tok.data).1 u mkHdr st
      rw [hpf.2.2.1]
      unfold mstep_join
      split
      · exact ⟨[], by rw [List.append_nil]; exact hrf.1, by simp, by simp⟩
      · rename_i hnm
        refine ⟨[⟨u.name, if keep_new then (parseSigils tok.data).1 else 0, false⟩],
          ?_, ?_, ?_⟩
        · show (mstep_relay keep_new (parseSigils tok.data).1 u mkHdr st).members
            ++ _ = _
          rw [hrf.1]
        · intro m hm
          simp only [List.mem_singleton] at hm
          subst hm
          intro hmem
          rw [hrf.1] at hnm
          exact hnm (by simpa using hmem)
        · intro hkn m hm
          simp only [List.mem_singleton] at hm
          subst hm
          simp [hkn]

/-- The whole loop only appends members; every appended member's name
was not previously a member name, and all appended members are
unprivileged when the new modes are discarded. -/
theorem processMembers_members (users : List User) (srcFrom : String)
    (keep_new : Bool) (mkHdr : List Char → String) :
    ∀ (toks : List String) (st0 : MLoopSt),
      ∃ d : List ChanMember,
        (processMembers users srcFrom keep_new mkHdr toks st0).members
          = st0.members ++ d ∧
        (∀ m ∈ d, m.name ∉ st0.members.map ChanMember.name) ∧
        (keep_new = false → ∀ m ∈ d, m.flags = 0)
  | [], st0 => ⟨[], by simp [processMembers], by simp, by simp⟩
  | tok :: toks, st0 => by
      obtain ⟨d1, h1, h1n, h1f⟩ := mstep_members users srcFrom keep_new mkHdr st0 tok
      obtain ⟨d2, h2, h2n, h2f⟩ := processMembers_members users srcFrom keep_new
        mkHdr toks (mstep users srcFrom keep_new mkHdr st0 tok)
      refine ⟨d1 ++ d2, ?_, ?_, ?_⟩
      · show (processMembers users srcFrom keep_new mkHdr toks
            (mstep users srcFrom keep_new mkHdr st0 tok)).members = _
        rw [h2, h1, List.append_assoc]
      · intro m hm
        rcases List.mem_append.mp hm with h | h
        · exact h1n m h
        · intro hmem
          apply h2n m h
          rw [h1]
          simp only [List.map_append, List.mem_append]
          exact Or.inl hmem
      · intro hkn m hm
        rcases List.mem_append.mp hm with h | h
        · exact h1f hkn m h
        · exact h2f hkn m h

/-- `sendbuf` accumulation: each parameter preceded by one space
(`sprintf(sptr, " %s", para[lcount])`). -/
def spaceParams (ps : List String) : String :=
  ps.foldl (fun a p => a ++ " " ++ p) ""

/-- A local privilege MODE line as sent:
`:servername MODE chname {sign}{letters}{sendbuf}`. -/
def renderModeLine (srv ch : String) (sign : Char) (l : ModeLine) : String :=
  ":" ++ srv ++ " MODE " ++ ch ++ " " ++ String.mk (sign :: l.letters)
    ++ spaceParams l.params

theorem foldl_append_space_length :
    ∀ (ps : List String) (a : String),
      (ps.foldl (fun a p => a ++ " " ++ p) a).length
        = a.length + (ps.map (fun p => p.length + 1)).sum
  | [], a => by simp
  | p :: ps, a => by
      rw [List.foldl_cons, foldl_append_space_length ps]
      simp only [String.length_append, List.map_cons, List.sum_cons]
      have : (" " : String).length = 1 := rfl
      rw [this]
      omega

theorem spaceParams_length (ps : List String) :
    (spaceParams ps).length = (ps.map (fun p => p.length + 1)).sum := by
  unfold spaceParams
  rw [foldl_append_space_length]
  show ([] : List Char).length + _ = _
  simp

theorem sum_params_bound (nickMax : Nat) :
    ∀ ps : List String, (∀ p ∈ ps, p.length ≤ nickMax) →
      (ps.map (fun p => p.length + 1)).sum ≤ ps.length * (nickMax + 1)
  | [], _ => by simp
  | p :: ps, h => by
      have hp := h p (List.mem_cons_self p ps)
      have := sum_params_bound nickMax ps (fun q hq => h q (List.mem_cons_of_mem p hq))
      simp only [List.map_cons, List.sum_cons, List.length_cons]
      have hmul : (ps.length + 1) * (nickMax + 1) = ps.length * (nickMax + 1) + (nickMax + 1) := by
        ring
      omega

theorem renderModeLine_length (srv ch : String) (sign : Char) (l : ModeLine)
    (hsrv : srv.length ≤ HOSTLEN) (hch : ch.length ≤ CHANNELLEN)
    (hlp : l.letters.length = l.params.length)
    (hcount : l.params.length ≤ MAXMODEPARAMS)
    (hnames : ∀ p ∈ l.params, p.length ≤ NICKLEN) :
    (renderModeLine srv ch sign l).length ≤ IRCD_BUFSIZE - 2 := by
  unfold renderModeLine
  simp only [String.length_append, spaceParams_length]
  have h1 : (":" : String).length = 1 := rfl
  have h2 : (" MODE " : String).length = 6 := rfl
  have h3 : (" " : String).length = 1 := rfl
  have h4 : (String.mk (sign :: l.letters)).length = 1 + l.letters.length := by
    show (sign :: l.letters).length = 1 + l.letters.length
    simp
    omega
  have h5 := sum_params_bound NICKLEN l.params hnames
  rw [h1, h2, h3, h4]
  simp only [HOSTLEN, CHANNELLEN, MAXMODEPARAMS, NICKLEN, IRCD_BUFSIZE] at *
  omega

theorem relayLine_lineStr_length (r : RelayLine) :
    r.lineStr.length = r.len := by
  unfold RelayLine.lineStr RelayLine.len
  have aux : ∀ (toks : List String) (a : String),
      (toks.foldl (fun a t => a ++ t ++ " ") a).length
        = a.length + (toks.map (fun t => t.length + 1)).sum := by
    intro toks
    induction toks with
    | nil => intro a; simp
    | cons t ts ih =>
        intro a
        rw [List.foldl_cons, ih]
        simp only [String.length_append, List.map_cons, List.sum_cons]
        have : (" " : String).length = 1 := rfl
        rw [this]
        omega
  rw [String.length_append, aux]
  simp

/-- C7: for every SJOIN processed, no emitted MODE line — privilege
grants accumulated by the membership loop (including the leftover line
pending at loop exit), privilege removals built by `remove_a_mode`, and
ban removals built by `remove_ban_list` — carries more than
`MAXMODEPARAMS` parameters; a flush is forced before the count would be
exceeded. -/
theorem mode_param_count_bound (users : List User) (srcFrom : String)
    (keep_new : Bool) (mkHdr : List Char → String) (nickMax : Nat)
    (toks : List String) (st0 : MLoopSt)
    (hid : ∀ u ∈ users, u.id.length ≤ IDLEN)
    (hnick : ∀ u ∈ users, u.name.length ≤ nickMax)
    (hmk : ∀ ls : List Char, ls.length < MAXMODEPARAMS →
      (mkHdr ls).length + (IDLEN + CMEMBER_STATUS_FLAGS_LEN) ≤ IRCD_BUFSIZE - 2)
    (h0 : MInv nickMax st0)
    (members : List ChanMember) (mask : Nat) (flag : Char)
    (mlen : Nat) (blist : List Ban) :
    (∀ l ∈ (processMembers users srcFrom keep_new mkHdr toks st0).modeLines,
      l.params.length ≤ MAXMODEPARAMS) ∧
    (processMembers users srcFrom keep_new mkHdr toks st0).para.length
      < MAXMODEPARAMS ∧
    (∀ l ∈ (remove_a_mode members mask flag).2,
      l.params.length ≤ MAXMODEPARAMS) ∧
    (∀ l ∈ (remove_ban_list mlen blist).2, l.length ≤ MAXMODEPARAMS) := by
  have hinv := processMembers_inv users srcFrom keep_new mkHdr nickMax hid
    hnick hmk toks st0 h0
  exact ⟨fun l hl => (hinv.modeOk l hl).2.1, hinv.paraLt,
    fun l hl => (remove_a_mode_lines members mask flag l hl).2.1,
    remove_ban_list_counts mlen blist⟩

/-- Witness for `mode_param_count_bound` at concrete inputs. -/
theorem mode_param_count_bound_witness :
    (∀ l ∈ (processMembers [⟨"alice", "1AAAAAA01", "hub", ""⟩] "hub" true
        (fun _ => ":1AA SJOIN 1000 #test 0 :") ["@alice"]
        ⟨[], [], ⟨":1AA SJOIN 1000 #test 0 :", []⟩, [], [], [], []⟩).modeLines,
      l.params.length ≤ MAXMODEPARAMS) ∧
    (processMembers [⟨"alice", "1AAAAAA01", "hub", ""⟩] "hub" true
        (fun _ => ":1AA SJOIN 1000 #test 0 :") ["@alice"]
        ⟨[], [], ⟨":1AA SJOIN 1000 #test 0 :", []⟩, [], [], [], []⟩).para.length
      < MAXMODEPARAMS ∧
    (∀ l ∈ (remove_a_mode [⟨"bob", 4, false⟩] 4 'o').2,
      l.params.length ≤ MAXMODEPARAMS) ∧
    (∀ l ∈ (remove_ban_list 20 [⟨"a", "b", "c", 3⟩]).2,
      l.length ≤ MAXMODEPARAMS) :=
  mode_param_count_bound [⟨"alice", "1AAAAAA01", "hub", ""⟩] "hub" true
    (fun _ => ":1AA SJOIN 1000 #test 0 :") 5 ["@alice"]
    ⟨[], [], ⟨":1AA SJOIN 1000 #test 0 :", []⟩, [], [], [], []⟩
    (by intro u hu; fin_cases hu <;> decide)
    (by intro u hu; fin_cases hu <;> decide)
    (by intro ls hls; show (":1AA SJOIN 1000 #test 0 :").length + (IDLEN + CMEMBER_STATUS_FLAGS_LEN) ≤ IRCD_BUFSIZE - 2; decide)
    ⟨(by decide), rfl, (by decide), (by intro l hl; cases hl),
      (by intro l hl; cases hl), (by intro p hp; cases hp),
      (by intro l hl; cases hl)⟩
    [⟨"bob", 4, false⟩] 4 'o' 20 [⟨"a", "b", "c", 3⟩]

/-- Parameters of `remove_a_mode` lines all satisfy any predicate the
member names satisfy. -/
theorem ram_go_params (mask : Nat) (flag : Char) (P : String → Prop) :
    ∀ (ms acc : List ChanMember) (mbuf : List Char) (lpara : List String)
      (lines : List ModeLine),
      (∀ p ∈ lpara, P p) →
      (∀ l ∈ lines, ∀ p ∈ l.params, P p) →
      (∀ mem ∈ ms, P mem.name) →
      ∀ l ∈ (ram_go mask flag ms acc mbuf lpara lines).2, ∀ p ∈ l.params, P p
  | [], acc, mbuf, lpara, lines => by
      intro hp hl hm l hmem
      simp only [ram_go] at hmem
      split at hmem
      · rcases List.mem_append.mp hmem with h | h
        · exact hl l h
        · simp only [List.mem_singleton] at h
          subst h
          exact hp
      · exact hl l hmem
  | mem :: rest, acc, mbuf, lpara, lines => by
      intro hp hl hm l hmem
      have hmn := hm mem (List.mem_cons_self mem rest)
      have hrest := fun m hm' => hm m (List.mem_cons_of_mem mem hm')
      simp only [ram_go] at hmem
      split at hmem
      · exact ram_go_params mask flag P rest _ _ _ _ hp hl hrest l hmem
      · split at hmem
        · refine ram_go_params mask flag P rest _ _ _ _ (by intro p hp'; cases hp')
            ?_ hrest l hmem
          intro l' hl' p hp'
          rcases List.mem_append.mp hl' with h | h
          · exact hl l' h p hp'
          · simp only [List.mem_singleton] at h
            subst h
            rcases List.mem_append.mp hp' with h' | h'
            · exact hp p h'
            · simp only [List.mem_singleton] at h'
              subst h'
              exact hmn
        · refine ram_go_params mask flag P rest _ _ _ _ ?_ hl hrest l hmem
          intro p hp'
          rcases List.mem_append.mp hp' with h' | h'
          · exact hp p h'
          · simp only [List.mem_singleton] at h'
            subst h'
            exact hmn

theorem remove_a_mode_params (members : List ChanMember) (mask : Nat)
    (flag : Char) (P : String → Prop) (hm : ∀ mem ∈ members, P mem.name) :
    ∀ l ∈ (remove_a_mode members mask flag).2, ∀ p ∈ l.params, P p := by
  unfold remove_a_mode
  exact ram_go_params mask flag P members [] [] [] []
    (by intro p hp; cases hp) (by intro l hl; cases hl) hm

/-- Byte-length bound for all emitted ban-removal lines. -/
theorem remove_ban_list_lens (mlen : Nat) (blist : List Ban)
    (hfit : ∀ b ∈ blist, mlen + (b.len + 4) ≤ IRCD_BUFSIZE - 2) :
    ∀ l ∈ (remove_ban_list mlen blist).2,
      banLineLen mlen l ≤ IRCD_BUFSIZE - 2 ∧ l ≠ [] := by
  unfold remove_ban_list
  split
  · intro l hl
    cases hl
  · rename_i hne
    have hblne : blist ≠ [] := by
      intro h
      exact hne (by simp [h])
    obtain ⟨b0, hb0⟩ : ∃ b, b ∈ blist := by
      cases blist with
      | nil => exact absurd rfl hblne
      | cons b bs => exact ⟨b, List.mem_cons_self b bs⟩
    have hmlen : mlen ≤ IRCD_BUFSIZE - 2 := by
      have := hfit b0 hb0
      omega
    exact rbl_go_lens mlen blist blist mlen [] [] hfit
      (by simp [banLineLen]) hmlen (Or.inr hblne) (by intro l hl; cases hl)

/-- Every entry on an emitted ban-removal line comes from the original
list. -/
theorem remove_ban_list_units_mem (mlen : Nat) (blist : List Ban) :
    ∀ l ∈ (remove_ban_list mlen blist).2, ∀ b ∈ l, b ∈ blist := by
  intro l hl b hb
  unfold remove_ban_list at hl
  split at hl
  · cases hl
  · have hj := rbl_go_join mlen blist blist mlen [] []
    simp only [List.flatten_nil, List.nil_append] at hj
    have : b ∈ ((rbl_go mlen blist blist mlen [] []).2).flatten :=
      List.mem_flatten.mpr ⟨l, hl, hb⟩
    rw [hj] at this
    simpa using this

/-- `parabuf` rendering of the delta parameters (`"%s "` / `"%u "`). -/
def renderDeltaParams : List SjParam → String
  | [] => ""
  | SjParam.key s :: ps => s ++ " " ++ renderDeltaParams ps
  | SjParam.limit n :: ps => Nat.repr n ++ " " ++ renderDeltaParams ps

/-- Rendered width of one delta parameter (`%s` / `%u`). -/
def sjParamLen : SjParam → Nat
  | SjParam.key s => s.length
  | SjParam.limit n => (Nat.repr n).length

theorem renderDeltaParams_length :
    ∀ ps : List SjParam, (renderDeltaParams ps).length
      = (ps.map (fun p => sjParamLen p + 1)).sum
  | [] => rfl
  | SjParam.key s :: ps => by
      simp only [renderDeltaParams, String.length_append,
        renderDeltaParams_length ps, List.map_cons, List.sum_cons, sjParamLen]
      have h : (" " : String).length = 1 := rfl
      rw [h]
  | SjParam.limit n :: ps => by
      simp only [renderDeltaParams, String.length_append,
        renderDeltaParams_length ps, List.map_cons, List.sum_cons, sjParamLen]
      have h : (" " : String).length = 1 := rfl
      rw [h]

theorem sfm_fix1_length (l : List Char) : (sfm_fix1 l).length ≤ l.length + 1 := by
  unfold sfm_fix1
  split
  · simp only [List.length_append, List.length_dropLast, List.length_singleton]
    omega
  · simp

theorem sfm_fix2_length (l : List Char) : (sfm_fix2 l).length ≤ l.length := by
  unfold sfm_fix2
  split
  · simp only [List.length_dropLast]
    omega
  · exact Nat.le_refl _

/-- The delta mode string is structurally small: a sign, at most one
letter per table row on each side, `l` and `k` on each side, and one
sign fix-up. -/
theorem delta_mbuf_length (tab : List ChanModeEntry) (m o : Mode) :
    ((set_final_mode tab m o).1).length ≤ 2 * tab.length + 6 := by
  rw [set_final_mode_eq]
  refine le_trans (sfm_fix2_length _) ?_
  rw [List.length_append]
  have h1 := sfm_fix1_length ('-' ::
    ((sfm_removed tab m.mode o.mode).map ChanModeEntry.letter
      ++ (if o.limit ≠ 0 ∧ m.limit = 0 then ['l'] else [])
      ++ (if o.key ≠ "" ∧ m.key = "" then ['k'] else [])))
  have hr : ((sfm_removed tab m.mode o.mode).map ChanModeEntry.letter).length
      ≤ tab.length := by
    rw [List.length_map]
    exact List.length_filter_le _ _
  have ha : ((sfm_added tab m.mode o.mode).map ChanModeEntry.letter).length
      ≤ tab.length := by
    rw [List.length_map]
    exact List.length_filter_le _ _
  have hi1 : (if o.limit ≠ 0 ∧ m.limit = 0 then ['l'] else []).length ≤ 1 := by
    split <;> simp
  have hi2 : (if o.key ≠ "" ∧ m.key = "" then ['k'] else []).length ≤ 1 := by
    split <;> simp
  have hi3 : (if m.limit ≠ 0 ∧ o.limit ≠ m.limit then ['l'] else []).length ≤ 1 := by
    split <;> simp
  have hi4 : (if m.key ≠ "" ∧ o.key ≠ m.key then ['k'] else []).length ≤ 1 := by
    split <;> simp
  simp only [List.length_cons, List.length_append] at h1 ⊢
  omega

/-- The delta parameter buffer is small: at most the removed key, the
ten decimal digits of a 32-bit limit, and the added key. -/
theorem delta_params_length (tab : List ChanModeEntry) (m o : Mode)
    (hko : o.key.length ≤ KEYLEN) (hkm : m.key.length ≤ KEYLEN)
    (hlim : m.limit < 2 ^ 32) :
    (renderDeltaParams (set_final_mode tab m o).2).length ≤ 2 * KEYLEN + 13 := by
  rw [set_final_mode_eq]
  show (renderDeltaParams
    ((if o.key ≠ "" ∧ m.key = "" then [SjParam.key o.key] else [])
      ++ (if m.limit ≠ 0 ∧ o.limit ≠ m.limit then [SjParam.limit m.limit] else [])
      ++ (if m.key ≠ "" ∧ o.key ≠ m.key then [SjParam.key m.key] else []))).length ≤ _
  rw [renderDeltaParams_length]
  simp only [List.map_append, List.sum_append]
  have hrep : (Nat.repr m.limit).length ≤ 10 :=
    Nat.repr_length _ 10 (by omega) (lt_trans hlim (by norm_num))
  have b1 : ((if o.key ≠ "" ∧ m.key = "" then [SjParam.key o.key] else []).map
      (fun p => sjParamLen p + 1)).sum ≤ KEYLEN + 1 := by
    split
    · simp only [List.map_cons, List.map_nil, List.sum_cons, List.sum_nil,
        sjParamLen]
      omega
    · simp only [List.map_nil, List.sum_nil]
      omega
  have b2 : ((if m.limit ≠ 0 ∧ o.limit ≠ m.limit then [SjParam.limit m.limit]
      else []).map (fun p => sjParamLen p + 1)).sum ≤ 11 := by
    split
    · simp only [List.map_cons, List.map_nil, List.sum_cons, List.sum_nil,
        sjParamLen]
      omega
    · simp only [List.map_nil, List.sum_nil]
      omega
  have b3 : ((if m.key ≠ "" ∧ o.key ≠ m.key then [SjParam.key m.key] else []).map
      (fun p => sjParamLen p + 1)).sum ≤ KEYLEN + 1 := by
    split
    · simp only [List.map_cons, List.map_nil, List.sum_cons, List.sum_nil,
        sjParamLen]
      omega
    · simp only [List.map_nil, List.sum_nil]
      omega
  simp only [KEYLEN] at b1 b3 ⊢
  omega

/-- C3: for every SJOIN processed and every member list, no emitted wire
line exceeds the fixed maximum protocol-line length, and every split
falls between tokens, never inside one: every flushed relay SJOIN chunk
and the pending relay line stay strictly below `IRCD_BUFSIZE` bytes; the
concatenation of all relay chunks' tokens is exactly the accepted member
tokens in order (no token is ever split across lines); every local
privilege MODE line flushed by the loop, the leftover privilege MODE
line the post-loop flush emits (the pending `mbuf`/`para`), every
`remove_a_mode` removal line, every ban-removal line (ban entries never
split across lines) and the stage-1 delta MODE line over the program's
mode-letter table all render within `IRCD_BUFSIZE - 2` bytes. -/
theorem wire_line_length_bound (users : List User) (srcFrom : String)
    (keep_new : Bool) (mkHdr : List Char → String)
    (toks : List String) (st0 : MLoopSt)
    (hid : ∀ u ∈ users, u.id.length ≤ IDLEN)
    (hnick : ∀ u ∈ users, u.name.length ≤ NICKLEN)
    (hmk : ∀ ls : List Char, ls.length < MAXMODEPARAMS →
      (mkHdr ls).length + (IDLEN + CMEMBER_STATUS_FLAGS_LEN) ≤ IRCD_BUFSIZE - 2)
    (h0 : MInv NICKLEN st0)
    (srv ch : String) (hsrv : srv.length ≤ HOSTLEN)
    (hch : ch.length ≤ CHANNELLEN)
    (members : List ChanMember) (mask : Nat) (flag : Char)
    (hmem : ∀ mem ∈ members, mem.name.length ≤ NICKLEN)
    (hdr2 : String) (c2 : Char) (blist : List Ban)
    (hbfit : ∀ b ∈ blist, hdr2.length + (b.len + 4) ≤ IRCD_BUFSIZE - 2)
    (hblen : ∀ b ∈ blist, b.len = b.name.length + b.user.length + b.host.length)
    (mNew mOld : Mode)
    (hko : mOld.key.length ≤ KEYLEN) (hkm : mNew.key.length ≤ KEYLEN)
    (hlim : mNew.limit < 2 ^ 32) :
    (∀ l ∈ (processMembers users srcFrom keep_new mkHdr toks st0).relayDone,
      l.lineStr.length < IRCD_BUFSIZE) ∧
    (processMembers users srcFrom keep_new mkHdr toks st0).relayCur.lineStr.length
      < IRCD_BUFSIZE ∧
    ((processMembers users srcFrom keep_new mkHdr toks st0).relayDone.map
        RelayLine.toks).flatten
        ++ (processMembers users srcFrom keep_new mkHdr toks st0).relayCur.toks
      = (st0.relayDone.map RelayLine.toks).flatten ++ st0.relayCur.toks
        ++ toks.filterMap (accepted_tok users srcFrom keep_new) ∧
    (∀ l ∈ (processMembers users srcFrom keep_new mkHdr toks st0).modeLines,
      (renderModeLine srv ch '+' l).length ≤ IRCD_BUFSIZE - 2) ∧
    (∀ l ∈ (remove_a_mode members mask flag).2,
      (renderModeLine srv ch '-' l).length ≤ IRCD_BUFSIZE - 2) ∧
    (∀ l ∈ (remove_ban_list hdr2.length blist).2,
      (renderBanLine hdr2 c2 l).length ≤ IRCD_BUFSIZE - 2) ∧
    (renderModeLine srv ch '+'
      ⟨(processMembers users srcFrom keep_new mkHdr toks st0).mletters,
       (processMembers users srcFrom keep_new mkHdr toks st0).para⟩).length
      ≤ IRCD_BUFSIZE - 2 ∧
    (":" ++ srv ++ " MODE " ++ ch ++ " "
      ++ String.mk (set_final_mode cmode_tab mNew mOld).1 ++ " "
      ++ renderDeltaParams (set_final_mode cmode_tab mNew mOld).2).length
      ≤ IRCD_BUFSIZE - 2 := by
  have hinv := processMembers_inv users srcFrom keep_new mkHdr NICKLEN hid
    hnick hmk toks st0 h0
  refine ⟨?_, ?_, processMembers_toks users srcFrom keep_new mkHdr toks st0,
    ?_, ?_, ?_, ?_, ?_⟩
  · intro l hl
    rw [relayLine_lineStr_length]
    have := hinv.doneLen l hl
    simp only [IRCD_BUFSIZE] at this ⊢
    omega
  · rw [relayLine_lineStr_length]
    have := hinv.curLen
    simp only [IRCD_BUFSIZE] at this ⊢
    omega
  · intro l hl
    exact renderModeLine_length srv ch '+' l hsrv hch (hinv.modeOk l hl).1
      (hinv.modeOk l hl).2.1 (hinv.modeNames l hl)
  · intro l hl
    have hok := remove_a_mode_lines members mask flag l hl
    exact renderModeLine_length srv ch '-' l hsrv hch hok.1 hok.2.1
      (remove_a_mode_params members mask flag _ hmem l hl)
  · intro l hl
    have hlen := remove_ban_list_lens hdr2.length blist hbfit l hl
    have hmemb := remove_ban_list_units_mem hdr2.length blist l hl
    rw [renderBanLine_length hdr2 c2 l hlen.2 (fun b hb => hblen b (hmemb b hb))]
    exact hlen.1
  · exact renderModeLine_length srv ch '+'
      ⟨(processMembers users srcFrom keep_new mkHdr toks st0).mletters,
       (processMembers users srcFrom keep_new mkHdr toks st0).para⟩
      hsrv hch hinv.lettersEq (Nat.le_of_lt hinv.paraLt) hinv.paraNames
  · have hdm := delta_mbuf_length cmode_tab mNew mOld
    have hdp := delta_params_length cmode_tab mNew mOld hko hkm hlim
    have hc13 : (cmode_tab : List ChanModeEntry).length = 13 := rfl
    rw [hc13] at hdm
    simp only [String.length_append]
    have e1 : (":" : String).length = 1 := rfl
    have e2 : (" MODE " : String).length = 6 := rfl
    have e3 : (" " : String).length = 1 := rfl
    have e4 : (String.mk (set_final_mode cmode_tab mNew mOld).1).length
        = ((set_final_mode cmode_tab mNew mOld).1).length := rfl
    rw [e1, e2, e3, e4]
    simp only [HOSTLEN] at hsrv
    simp only [CHANNELLEN] at hch
    simp only [KEYLEN] at hdp
    simp only [IRCD_BUFSIZE]
    omega

/-- Witness for `wire_line_length_bound` at concrete inputs. -/
theorem wire_line_length_bound_witness :
    (∀ l ∈ (processMembers [⟨"alice", "1AAAAAA01", "hub", ""⟩] "hub" true
        (fun _ => ":1AA SJOIN 1000 #test 0 :") ["@alice"]
        ⟨[], [], ⟨":1AA SJOIN 1000 #test 0 :", []⟩, [], [], [], []⟩).relayDone,
      l.lineStr.length < IRCD_BUFSIZE) ∧
    (processMembers [⟨"alice", "1AAAAAA01", "hub", ""⟩] "hub" true
        (fun _ => ":1AA SJOIN 1000 #test 0 :") ["@alice"]
        ⟨[], [], ⟨":1AA SJOIN 1000 #test 0 :", []⟩, [], [], [], []⟩).relayCur.lineStr.length
      < IRCD_BUFSIZE ∧
    ((processMembers [⟨"alice", "1AAAAAA01", "hub", ""⟩] "hub" true
        (fun _ => ":1AA SJOIN 1000 #test 0 :") ["@alice"]
        ⟨[], [], ⟨":1AA SJOIN 1000 #test 0 :", []⟩, [], [], [], []⟩).relayDone.map
        RelayLine.toks).flatten
        ++ (processMembers [⟨"alice", "1AAAAAA01", "hub", ""⟩] "hub" true
        (fun _ => ":1AA SJOIN 1000 #test 0 :") ["@alice"]
        ⟨[], [], ⟨":1AA SJOIN 1000 #test 0 :", []⟩, [], [], [], []⟩).relayCur.toks
      = (([] : List RelayLine).map RelayLine.toks).flatten ++ ([] : List String)
        ++ ["@alice"].filterMap (accepted_tok [⟨"alice", "1AAAAAA01", "hub", ""⟩] "hub" true) ∧
    (∀ l ∈ (processMembers [⟨"alice", "1AAAAAA01", "hub", ""⟩] "hub" true
        (fun _ => ":1AA SJOIN 1000 #test 0 :") ["@alice"]
        ⟨[], [], ⟨":1AA SJOIN 1000 #test 0 :", []⟩, [], [], [], []⟩).modeLines,
      (renderModeLine "irc.example.net" "#test" '+' l).length ≤ IRCD_BUFSIZE - 2) ∧
    (∀ l ∈ (remove_a_mode [⟨"bob", 4, false⟩] 4 'o').2,
      (renderModeLine "irc.example.net" "#test" '-' l).length ≤ IRCD_BUFSIZE - 2) ∧
    (∀ l ∈ (remove_ban_list (":irc.example.net MODE #test -").length
        [⟨"x", "y", "z", 3⟩]).2,
      (renderBanLine ":irc.example.net MODE #test -" 'b' l).length
        ≤ IRCD_BUFSIZE - 2) ∧
    (renderModeLine "irc.example.net" "#test" '+'
      ⟨(processMembers [⟨"alice", "1AAAAAA01", "hub", ""⟩] "hub" true
        (fun _ => ":1AA SJOIN 1000 #test 0 :") ["@alice"]
        ⟨[], [], ⟨":1AA SJOIN 1000 #test 0 :", []⟩, [], [], [], []⟩).mletters,
       (processMembers [⟨"alice", "1AAAAAA01", "hub", ""⟩] "hub" true
        (fun _ => ":1AA SJOIN 1000 #test 0 :") ["@alice"]
        ⟨[], [], ⟨":1AA SJOIN 1000 #test 0 :", []⟩, [], [], [], []⟩).para⟩).length
      ≤ IRCD_BUFSIZE - 2 ∧
    (":" ++ "irc.example.net" ++ " MODE " ++ "#test" ++ " "
      ++ String.mk (set_final_mode cmode_tab ⟨8, 5, "sekrit"⟩ ⟨1, 0, ""⟩).1 ++ " "
      ++ renderDeltaParams (set_final_mode cmode_tab ⟨8, 5, "sekrit"⟩
          ⟨1, 0, ""⟩).2).length
      ≤ IRCD_BUFSIZE - 2 :=
  wire_line_length_bound [⟨"alice", "1AAAAAA01", "hub", ""⟩] "hub" true
    (fun _ => ":1AA SJOIN 1000 #test 0 :") ["@alice"]
    ⟨[], [], ⟨":1AA SJOIN 1000 #test 0 :", []⟩, [], [], [], []⟩
    (by intro u hu; fin_cases hu; decide)
    (by intro u hu; fin_cases hu; decide)
    (by intro ls hls; show (":1AA SJOIN 1000 #test 0 :").length + (IDLEN + CMEMBER_STATUS_FLAGS_LEN) ≤ IRCD_BUFSIZE - 2; decide)
    ⟨(by decide), rfl, (by decide), (by intro l hl; cases hl),
      (by intro l hl; cases hl), (by intro p hp; cases hp),
      (by intro l hl; cases hl)⟩
    "irc.example.net" "#test" (by decide) (by decide)
    [⟨"bob", 4, false⟩] 4 'o'
    (by intro mem hm; fin_cases hm; decide)
    ":irc.example.net MODE #test -" 'b' [⟨"x", "y", "z", 3⟩]
    (by intro b hb; fin_cases hb; decide)
    (by intro b hb; fin_cases hb; decide)
    ⟨8, 5, "sekrit"⟩ ⟨1, 0, ""⟩ (by decide) (by decide) (by decide)

/-- `struct Channel`: the fields this core reads and writes. -/
structure Channel where
  name : String
  creationtime : Nat
  mode : Mode
  members : List ChanMember
  banlist : List Ban
  exceptlist : List Ban
  invexlist : List Ban
  topic : String
  invites : List String
deriving DecidableEq

/-- Destination class of an emitted protocol message: operator notices
(`sendto_realops_flags`), channel-local fan-out
(`sendto_channel_local`), or all linked servers except the origin link
(`sendto_server(source_p, ...)`).  The handler never addresses the
originating link itself. -/
inductive Dest
  | realops
  | chanLocal
  | serversExceptFrom
deriving DecidableEq

/-- One emitted protocol message. -/
structure Emit where
  dest : Dest
  line : String
deriving DecidableEq

/-- `strtoumax` / `atoi` on the digit strings that occur on this wire:
the numeric value of the leading digit run. -/
def digitsToNat : List Char → Nat → Nat
  | [], acc => acc
  | c :: cs, acc =>
      if c.isDigit then digitsToNat cs (acc * 10 + (c.toNat - 48)) else acc

/-- Numeric value of a wire field. -/
def strtoNat (s : String) : Nat := digitsToNat s.data 0

/-- Modelled from the spec: `channel_check_name` (channel.c is outside
this tree): a channel name is valid when non-empty, within
`CHANNELLEN`, `#`-led, and free of separators. -/
def channel_check_name (s : String) : Bool :=
  s.length ≠ 0 && s.length ≤ CHANNELLEN && s.data.headD ' ' = '#'
    && s.data.all (fun c => c ≠ ' ' && c ≠ ',')

/-- The mode-letter parse loop of `ms_sjoin` (lines 110-143): `k` and
`l` consume one positional argument each and abort the handler when too
few arguments remain (`parc < 5 + args`); other letters are looked up in
`cmode_map`.  Returns the parsed mode and consumed-argument count, or
`none` on abort.  The C copies the argument before running the count
check; on the handler's delivered domain (`parc` at least 5, the
module's registered `args_min`) every such copy reads an existing
argument and the copied value is dropped on abort, so checking first,
as here, computes the same result. -/
def spm_go (tab : List ChanModeEntry) (parv : List String) :
    List Char → Mode → Nat → Option (Mode × Nat)
  | [], m, args => some (m, args)
  | c :: cs, m, args =>
      if c = 'k' then
        if parv.length < 5 + (args + 1) then none
        else spm_go tab parv cs
          { m with key := (parv.getD (4 + args) "").take KEYLEN } (args + 1)
      else if c = 'l' then
        if parv.length < 5 + (args + 1) then none
        else spm_go tab parv cs
          { m with limit := strtoNat (parv.getD (4 + args) "") } (args + 1)
      else
        match cmode_map_find tab c with
        | some e => spm_go tab parv cs { m with mode := m.mode ||| e.mode } args
        | none => spm_go tab parv cs m args

/-- The whole mode-argument parse of `ms_sjoin` over `parv[3]`. -/
def sjoin_parse_modes (tab : List ChanModeEntry) (parv : List String) :
    Option (Mode × Nat) :=
  spm_go tab parv (parv.getD 3 "").data ⟨0, 0, ""⟩ 0

/-- Modelled from the spec: `channel_make` (channel.c is outside this
tree): a fresh channel with zeroed state. -/
def channel_make (chname : String) : Channel :=
  ⟨chname, 0, ⟨0, 0, ""⟩, [], [], [], [], "", []⟩

/-- The `servername` selection of `ms_sjoin` (lines 88-89). -/
def sjoin_servername (env_hide : Bool) (srcHidden : Bool)
    (meName srcName : String) : String :=
  if env_hide || srcHidden then meName else srcName

/-- The ban-removal line head `":%s MODE %s -"` (m_sjoin.c line 707). -/
def banHdr (srcName chname : String) : String :=
  ":" ++ srcName ++ " MODE " ++ chname ++ " -"

/-- Modelled from the spec: `channel_modes` / `encodeFullMode`
(channel_mode.c is outside this tree): `+` followed by every set flag
letter, `l` if a limit is set, `k` if a key is set, with the limit and
key values in the parameter buffer. -/
def channel_modes (tab : List ChanModeEntry) (m : Mode) : String × String :=
  (String.mk ('+' ::
      (((tab.filter (fun e => decide (e.mode ≠ 0 ∧ e.mode &&& m.mode ≠ 0))).map
          ChanModeEntry.letter)
        ++ (if m.limit ≠ 0 then ['l'] else [])
        ++ (if m.key ≠ "" then ['k'] else []))),
    (if m.limit ≠ 0 then Nat.repr m.limit ++ " " else "")
      ++ (if m.key ≠ "" then m.key ++ " " else ""))

/-- The bogus-TS adjustment of `ms_sjoin` (lines 154-165): with
`ignore_bogus_ts`, an implausibly small incoming TS is clamped to the
floor (or to `0` if the channel's TS is `0`). -/
def sjoin_adjust_ts (ignoreBogus : Bool) (oldts newts : Nat) : Nat :=
  if ignoreBogus then
    if newts < 800000000 then (if oldts = 0 then 0 else 800000000) else newts
  else newts

/-- The notices of lines 154-177: a bogus-TS operator notice when
clamping, or the TS-changed-to-0 notices otherwise. -/
def sjoin_adjust_notices (ignoreBogus : Bool) (isnew : Bool)
    (oldts newts : Nat) (meName chname srcName : String) : List Emit :=
  if ignoreBogus then
    if newts < 800000000 then
      [⟨Dest.realops, "*** Bogus TS " ++ Nat.repr newts ++ " on " ++ chname
        ++ " ignored from " ++ srcName⟩]
    else []
  else
    if newts = 0 ∧ isnew = false ∧ oldts ≠ 0 then
      [⟨Dest.chanLocal, ":" ++ meName ++ " NOTICE " ++ chname
          ++ " :*** Notice -- TS for " ++ chname ++ " changed from "
          ++ Nat.repr oldts ++ " to 0"⟩,
       ⟨Dest.realops, "Server " ++ srcName ++ " changing TS on " ++ chname
          ++ " from " ++ Nat.repr oldts ++ " to 0"⟩]
    else []

/-- The TS-loss channel update of `ms_sjoin` (lines 212-234): rename to
the incoming spelling, strip all privilege flags, prune the three
list-type modes, clear the per-member ban caches, empty the invite list
and clear the topic. -/
def tsLossChan (srcName chname : String) (isnew : Bool) (c : Channel) : Channel :=
  { c with
    name := if isnew = false then chname else c.name,
    members := ((remove_our_modes c.members).1).map
      (fun m => { m with banCached := false }),
    banlist := (remove_ban_list (banHdr srcName (if isnew = false then chname else c.name)).length c.banlist).1,
    exceptlist := (remove_ban_list (banHdr srcName (if isnew = false then chname else c.name)).length c.exceptlist).1,
    invexlist := (remove_ban_list (banHdr srcName (if isnew = false then chname else c.name)).length c.invexlist).1,
    invites := [],
    topic := "" }

/-- The TS-loss emissions of `ms_sjoin` (lines 218-239): the batched
privilege-removal MODE lines, the batched ban/except/invex removal
lines, the TOPIC clear (only when a topic was set), and the TS-change
notice. -/
def tsLossEmits (hide : Bool) (srcHidden : Bool) (meName srcName : String)
    (chname : String) (oldts newts : Nat) (c : Channel) : List Emit :=
  (((remove_our_modes c.members).2).map (fun l =>
      ⟨Dest.chanLocal, renderModeLine
        (sjoin_servername hide srcHidden meName srcName) chname '-' l⟩))
  ++ (((remove_ban_list (banHdr srcName chname).length c.banlist).2).map
      (fun l => ⟨Dest.chanLocal, renderBanLine (banHdr srcName chname) 'b' l⟩))
  ++ (((remove_ban_list (banHdr srcName chname).length c.exceptlist).2).map
      (fun l => ⟨Dest.chanLocal, renderBanLine (banHdr srcName chname) 'e' l⟩))
  ++ (((remove_ban_list (banHdr srcName chname).length c.invexlist).2).map
      (fun l => ⟨Dest.chanLocal, renderBanLine (banHdr srcName chname) 'I' l⟩))
  ++ (if c.topic ≠ "" then
      [⟨Dest.chanLocal, ":" ++ sjoin_servername hide srcHidden meName srcName
        ++ " TOPIC " ++ chname ++ " :"⟩] else [])
  ++ [⟨Dest.chanLocal, ":" ++ meName ++ " NOTICE " ++ chname
      ++ " :*** Notice -- TS for " ++ chname ++ " changed from "
      ++ Nat.repr oldts ++ " to " ++ Nat.repr newts⟩]

/-- The environment an SJOIN is processed in: configuration, origin
server identity, the User Directory, and the Channel Store lookup
result for the named channel. -/
structure SjoinEnv where
  ignore_bogus_ts : Bool
  hide_servers : Bool
  srcName : String
  srcId : String
  srcFrom : String
  srcHidden : Bool
  meName : String
  users : List User
  existing : Option Channel
deriving DecidableEq

/-- The TS arbitration decision for the adjusted incoming TS
(m_sjoin.c lines 179-194 after the bogus-TS adjustment). -/
def st1_d (env : SjoinEnv) (isnew : Bool) (c0 : Channel) (newts0 : Nat) : TsDec :=
  ts_decide isnew (sjoin_adjust_ts env.ignore_bogus_ts c0.creationtime newts0)
    c0.creationtime

/-- The resolved mode (m_sjoin.c lines 196-206). -/
def st1_mode (env : SjoinEnv) (isnew : Bool) (c0 : Channel) (m0 : Mode)
    (newts0 : Nat) : Mode :=
  resolve_mode (st1_d env isnew c0 newts0).keep_our
    (st1_d env isnew c0 newts0).keep_new m0 c0.mode

/-- The channel after timestamp and mode assignment (lines 179-209). -/
def st1_chan1 (env : SjoinEnv) (isnew : Bool) (c0 : Channel) (m0 : Mode)
    (newts0 : Nat) : Channel :=
  { c0 with creationtime := (st1_d env isnew c0 newts0).creation,
            mode := st1_mode env isnew c0 m0 newts0 }

/-- The channel after the optional TS-loss cleanup (lines 211-240). -/
def st1_chan (env : SjoinEnv) (chname : String) (isnew : Bool) (c0 : Channel)
    (m0 : Mode) (newts0 : Nat) : Channel :=
  if (st1_d env isnew c0 newts0).keep_our = false then
    tsLossChan env.srcName chname isnew (st1_chan1 env isnew c0 m0 newts0)
  else st1_chan1 env isnew c0 m0 newts0

/-- The mode delta computed at line 208 (before the assignment). -/
def st1_delta (tab : List ChanModeEntry) (env : SjoinEnv) (isnew : Bool)
    (c0 : Channel) (m0 : Mode) (newts0 : Nat) : List Char × List SjParam :=
  set_final_mode tab (st1_mode env isnew c0 m0 newts0) c0.mode

/-- The relay `modebuf`/`parabuf` pair of lines 250-256: the full mode
encoding when the new modes are kept and `parv[3]` is not the `0`
placeholder; otherwise the `0` placeholder with the delta parameters
left over in `parabuf`. -/
def st1_relay (tab : List ChanModeEntry) (env : SjoinEnv) (parv3 : String)
    (isnew : Bool) (c0 : Channel) (m0 : Mode) (newts0 : Nat) : String × String :=
  if parv3.data.headD ' ' ≠ '0' ∧ (st1_d env isnew c0 newts0).keep_new = true then
    channel_modes tab (st1_mode env isnew c0 m0 newts0)
  else ("0", renderDeltaParams (st1_delta tab env isnew c0 m0 newts0).2)

/-- All emissions of lines 154-248: the TS-adjustment notices, the
TS-loss block, and the local delta MODE line when the delta is
non-empty. -/
def st1_emits (tab : List ChanModeEntry) (env : SjoinEnv) (chname : String)
    (isnew : Bool) (c0 : Channel) (m0 : Mode) (newts0 : Nat) : List Emit :=
  sjoin_adjust_notices env.ignore_bogus_ts isnew c0.creationtime newts0
    env.meName c0.name env.srcName
  ++ (if (st1_d env isnew c0 newts0).keep_our = false then
        tsLossEmits env.hide_servers env.srcHidden env.meName env.srcName
          (st1_chan env chname isnew c0 m0 newts0).name c0.creationtime
          (sjoin_adjust_ts env.ignore_bogus_ts c0.creationtime newts0)
          (st1_chan1 env isnew c0 m0 newts0)
      else [])
  ++ (if (st1_delta tab env isnew c0 m0 newts0).1 ≠ [] then
        [⟨Dest.chanLocal, ":" ++ sjoin_servername env.hide_servers env.srcHidden
            env.meName env.srcName
          ++ " MODE " ++ (st1_chan env chname isnew c0 m0 newts0).name ++ " "
          ++ String.mk (st1_delta tab env isnew c0 m0 newts0).1 ++ " "
          ++ renderDeltaParams (st1_delta tab env isnew c0 m0 newts0).2⟩]
      else [])

/-- Everything `ms_sjoin` computes before the membership loop. -/
structure Stage1Out where
  chan : Channel
  isnew : Bool
  keep_new : Bool
  tstosend : Nat
  relayModebuf : String
  relayParabuf : String
  emits : List Emit
deriving DecidableEq

/-- Lines 145-256 of `ms_sjoin`, for a given lookup result. -/
def sjoin_stage1_core (tab : List ChanModeEntry) (env : SjoinEnv)
    (chname parv3 : String) (m0 : Mode) (newts0 : Nat) (isnew : Bool)
    (c0 : Channel) : Stage1Out :=
  ⟨st1_chan env chname isnew c0 m0 newts0, isnew,
   (st1_d env isnew c0 newts0).keep_new,
   (st1_d env isnew c0 newts0).tstosend,
   (st1_relay tab env parv3 isnew c0 m0 newts0).1,
   (st1_relay tab env parv3 isnew c0 m0 newts0).2,
   st1_emits tab env chname isnew c0 m0 newts0⟩

/-- Lines 145-256 of `ms_sjoin`: look the channel up, creating it if
absent (`hash_find_channel` / `channel_make`). -/
def sjoin_stage1 (tab : List ChanModeEntry) (env : SjoinEnv)
    (chname parv3 : String) (m0 : Mode) (newts0 : Nat) : Stage1Out :=
  match env.existing with
  | none => sjoin_stage1_core tab env chname parv3 m0 newts0 true
      (channel_make chname)
  | some c => sjoin_stage1_core tab env chname parv3 m0 newts0 false c

/-- The relay header `":%s SJOIN %ju %s %s %s:"` (lines 258-260). -/
def sjoin_hdr (srcId : String) (tstosend : Nat)
    (chname modebuf parabuf : String) : String :=
  ":" ++ srcId ++ " SJOIN " ++ Nat.repr tstosend ++ " " ++ chname ++ " "
    ++ modebuf ++ " " ++ parabuf ++ ":"

/-- The privilege-mode buffer as a C string at relay-flush time
(line 359 reuses `modebuf` after `*mbuf++ = '+'` overwrote its start):
`+` and the accumulated letters overwrite the head of the old relay mode
string, whose tail shows through when longer.  Buffer contents beyond
the old string's terminator are not modelled. -/
def modebufDrift (old : String) (ls : List Char) : String :=
  String.mk (('+' :: ls) ++ old.data.drop (1 + ls.length))

/-- The result of processing one SJOIN: whether the Channel Store was
reached, the stored channel state afterwards (`none` when the channel
was never created or was destroyed), the emitted messages, and whether
the handler ran to completion (no early return). -/
structure SjoinRes where
  storeTouched : Bool
  chan : Option Channel
  emits : List Emit
  completed : Bool
deriving DecidableEq

/-- The loop-phase emissions: flushed relay chunks, join (and away)
notifications, and the privilege MODE lines including the final
leftover flush (lines 367-513; the two capability-dependent JOIN
variants are collapsed into one line, and in-loop emission
interleaving is represented as grouped output). -/
def sjoin_loop_emits (env : SjoinEnv) (st1 : Stage1Out) (lo : MLoopSt) : List Emit :=
  (lo.relayDone.map (fun r => ⟨Dest.serversExceptFrom, r.lineStr⟩))
  ++ (lo.joins.map (fun u =>
      ⟨Dest.chanLocal, ":" ++ u.name ++ " JOIN :" ++ st1.chan.name⟩))
  ++ ((lo.joins.filter (fun u => u.away ≠ "")).map (fun u =>
      ⟨Dest.chanLocal, ":" ++ u.name ++ " AWAY :" ++ u.away⟩))
  ++ ((lo.modeLines ++ (if lo.para ≠ [] then [ModeLine.mk lo.mletters lo.para] else [])).map
      (fun l => ⟨Dest.chanLocal, renderModeLine
        (sjoin_servername env.hide_servers env.srcHidden env.meName env.srcName)
        st1.chan.name '+' l⟩))

/-- The final relay line: `*(uid_ptr - 1) = '\0'` strips the last
appended character (the trailing space, or the header colon when no
token was appended since the last flush). -/
def finalRelayStr (lo : MLoopSt) : String :=
  String.mk lo.relayCur.lineStr.data.dropLast

/-- Lines 490-532: the post-loop finalization — destroy a freshly made
channel left empty, skip the final relay when the member field was
empty, otherwise send the last relay chunk. -/
def ms_sjoin_loopres (env : SjoinEnv) (parv : List String) (args : Nat)
    (st1 : Stage1Out) (lo : MLoopSt) : SjoinRes :=
  if lo.members.length = 0 ∧ st1.isnew = true then
    ⟨true, none, st1.emits ++ sjoin_loop_emits env st1 lo, true⟩
  else if parv.getD (4 + args) "" = "" then
    ⟨true, some { st1.chan with members := lo.members },
     st1.emits ++ sjoin_loop_emits env st1 lo, true⟩
  else
    ⟨true, some { st1.chan with members := lo.members },
     st1.emits ++ sjoin_loop_emits env st1 lo
       ++ [⟨Dest.serversExceptFrom, finalRelayStr lo⟩], true⟩

/-- Lines 258-532: the header guard and the membership loop. -/
def ms_sjoin_post (env : SjoinEnv) (parv : List String) (args : Nat)
    (st1 : Stage1Out) : SjoinRes :=
  if (sjoin_hdr env.srcId st1.tstosend st1.chan.name st1.relayModebuf
      st1.relayParabuf).length
      ≥ IRCD_BUFSIZE - IDLEN - 2 - CMEMBER_STATUS_FLAGS_LEN - 1 then
    ⟨true, some st1.chan,
     st1.emits ++ [⟨Dest.realops, "Long SJOIN from server: " ++ env.srcName
       ++ " (ignored)"⟩], false⟩
  else
    ms_sjoin_loopres env parv args st1
      (processMembers env.users env.srcFrom st1.keep_new
        (fun ls => sjoin_hdr env.srcId st1.tstosend st1.chan.name
          (modebufDrift st1.relayModebuf ls) st1.relayParabuf)
        (tokenize (parv.getD (4 + args) ""))
        ⟨st1.chan.members, [],
         ⟨sjoin_hdr env.srcId st1.tstosend st1.chan.name st1.relayModebuf
            st1.relayParabuf, []⟩, [], [], [], []⟩)

/-- `ms_sjoin` (m_sjoin.c lines 62-533), from a server origin: validate
the channel name, parse the mode field, reconcile, process the member
list and emit the outbound messages. -/
def ms_sjoin (tab : List ChanModeEntry) (env : SjoinEnv)
    (parv : List String) : SjoinRes :=
  if channel_check_name (parv.getD 2 "") = false then
    ⟨false, env.existing,
     [⟨Dest.realops, "*** Too long or invalid channel name from "
       ++ env.srcName ++ ": " ++ parv.getD 2 ""⟩], false⟩
  else
    match sjoin_parse_modes tab parv with
    | none => ⟨false, env.existing, [], false⟩
    | some ma =>
        ms_sjoin_post env parv ma.2
          (sjoin_stage1 tab env (parv.getD 2 "") (parv.getD 3 "") ma.1
            (strtoNat (parv.getD 1 "")))

theorem remove_ban_list_fst (mlen : Nat) (list : List Ban) :
    (remove_ban_list mlen list).1 = [] := by
  unfold remove_ban_list
  split
  · rename_i h
    simp [List.length_eq_zero.mp h]
  · exact rbl_go_state mlen list mlen [] []

theorem tsLossChan_names (s cn : String) (b : Bool) (c : Channel) :
    (tsLossChan s cn b c).members.map ChanMember.name
      = c.members.map ChanMember.name := by
  show (((remove_our_modes c.members).1).map
      (fun m => { m with banCached := false })).map ChanMember.name = _
  rw [List.map_map]
  have : (ChanMember.name ∘ fun m => { m with banCached := false })
      = ChanMember.name := by
    funext m
    rfl
  rw [this, (remove_our_modes_clears c.members).2.1]

theorem tsLossChan_flags (s cn : String) (b : Bool) (c : Channel) :
    ∀ m ∈ (tsLossChan s cn b c).members,
      m.flags &&& (CHFL_CHANOP ||| CHFL_HALFOP ||| CHFL_VOICE) = 0 := by
  intro m hm
  show m.flags &&& _ = 0
  have hm' : m ∈ ((remove_our_modes c.members).1).map
      (fun m => { m with banCached := false }) := hm
  simp only [List.mem_map] at hm'
  obtain ⟨m0, hm0, he⟩ := hm'
  have := (remove_our_modes_clears c.members).1 m0 hm0
  subst he
  exact this

theorem tsLossChan_banCached (s cn : String) (b : Bool) (c : Channel) :
    ∀ m ∈ (tsLossChan s cn b c).members, m.banCached = false := by
  intro m hm
  have hm' : m ∈ ((remove_our_modes c.members).1).map
      (fun m => { m with banCached := false }) := hm
  simp only [List.mem_map] at hm'
  obtain ⟨m0, _, he⟩ := hm'
  subst he
  rfl

theorem sjoin_adjust_ts_id (oldts newts : Nat) :
    sjoin_adjust_ts false oldts newts = newts := rfl

theorem st1_d_loss (env : SjoinEnv) (c0 : Channel) (n : Nat)
    (hib : env.ignore_bogus_ts = false) (h0 : 0 < n)
    (hlt : n < c0.creationtime) :
    st1_d env false c0 n = ⟨false, true, n, n⟩ := by
  unfold st1_d
  rw [hib, sjoin_adjust_ts_id]
  unfold ts_decide
  have h1 : ¬ (n = 0 ∨ c0.creationtime = 0) := by omega
  have h2 : ¬ n = c0.creationtime := by omega
  simp [h1, h2, hlt]

theorem st1_d_win (env : SjoinEnv) (c0 : Channel) (n : Nat)
    (hib : env.ignore_bogus_ts = false) (h0 : 0 < c0.creationtime)
    (hgt : c0.creationtime < n) :
    st1_d env false c0 n = ⟨true, false, c0.creationtime, c0.creationtime⟩ := by
  unfold st1_d
  rw [hib, sjoin_adjust_ts_id]
  unfold ts_decide
  have h1 : ¬ (n = 0 ∨ c0.creationtime = 0) := by omega
  have h2 : ¬ n = c0.creationtime := by omega
  have h3 : ¬ n < c0.creationtime := by omega
  simp [h1, h2, h3]

theorem st1_d_fresh (env : SjoinEnv) (c0 : Channel) (n : Nat) :
    st1_d env true c0 n = ⟨true, true,
      sjoin_adjust_ts env.ignore_bogus_ts c0.creationtime n,
      sjoin_adjust_ts env.ignore_bogus_ts c0.creationtime n⟩ := by
  unfold st1_d ts_decide
  simp

theorem resolve_mode_fresh (m0 : Mode) :
    resolve_mode true true m0 ⟨0, 0, ""⟩ = m0 := by
  unfold resolve_mode
  simp [strcmpLt_empty_right, Nat.or_zero]

theorem st1_chan_loss (env : SjoinEnv) (chn : String) (m0 : Mode) (n : Nat)
    (c0 : Channel) (hib : env.ignore_bogus_ts = false) (h0 : 0 < n)
    (hlt : n < c0.creationtime) :
    st1_chan env chn false c0 m0 n
      = tsLossChan env.srcName chn false
          { c0 with creationtime := n, mode := st1_mode env false c0 m0 n } := by
  unfold st1_chan st1_chan1
  rw [st1_d_loss env c0 n hib h0 hlt]
  rfl

theorem st1_chan_win (env : SjoinEnv) (chn : String) (m0 : Mode) (n : Nat)
    (c0 : Channel) (hib : env.ignore_bogus_ts = false)
    (h0 : 0 < c0.creationtime) (hgt : c0.creationtime < n) :
    st1_chan env chn false c0 m0 n = c0 := by
  unfold st1_chan st1_chan1 st1_mode resolve_mode
  rw [st1_d_win env c0 n hib h0 hgt]
  rfl

theorem st1_chan_fresh (env : SjoinEnv) (chn : String) (m0 : Mode) (n : Nat)
    (hib : env.ignore_bogus_ts = false) :
    st1_chan env chn true (channel_make chn) m0 n
      = { channel_make chn with creationtime := n, mode := m0 } := by
  unfold st1_chan st1_chan1 st1_mode
  rw [st1_d_fresh, hib, sjoin_adjust_ts_id]
  have : (channel_make chn).mode = ⟨0, 0, ""⟩ := rfl
  rw [this, resolve_mode_fresh]
  rfl

theorem ms_sjoin_eq_post (tab : List ChanModeEntry) (env : SjoinEnv)
    (parv : List String) (m0 : Mode) (args : Nat)
    (hname : channel_check_name (parv.getD 2 "") = true)
    (hparse : sjoin_parse_modes tab parv = some (m0, args)) :
    ms_sjoin tab env parv
      = ms_sjoin_post env parv args
          (sjoin_stage1 tab env (parv.getD 2 "") (parv.getD 3 "") m0
            (strtoNat (parv.getD 1 ""))) := by
  unfold ms_sjoin
  rw [hname, hparse]
  rfl

theorem ms_sjoin_post_chan (env : SjoinEnv) (parv : List String) (args : Nat)
    (st1 : Stage1Out) (P : Channel → Prop)
    (hP : ∀ d : List ChanMember,
      (∀ m ∈ d, m.name ∉ st1.chan.members.map ChanMember.name) →
      (st1.keep_new = false → ∀ m ∈ d, m.flags = 0) →
      P { st1.chan with members := st1.chan.members ++ d })
    (hP0 : P st1.chan) :
    ∀ c : Channel, (ms_sjoin_post env parv args st1).chan = some c → P c := by
  unfold ms_sjoin_post
  split
  · intro c hc
    cases hc
    exact hP0
  · obtain ⟨d, hd, hdn, hdf⟩ := processMembers_members env.users env.srcFrom
      st1.keep_new
      (fun ls => sjoin_hdr env.srcId st1.tstosend st1.chan.name
        (modebufDrift st1.relayModebuf ls) st1.relayParabuf)
      (tokenize (parv.getD (4 + args) ""))
      ⟨st1.chan.members, [],
       ⟨sjoin_hdr env.srcId st1.tstosend st1.chan.name st1.relayModebuf
          st1.relayParabuf, []⟩, [], [], [], []⟩
    unfold ms_sjoin_loopres
    split
    · intro c hc
      cases hc
    · split
      · intro c hc
        cases hc
        rw [hd]
        exact hP d hdn hdf
      · intro c hc
        cases hc
        rw [hd]
        exact hP d hdn hdf

theorem ms_sjoin_post_emits (env : SjoinEnv) (parv : List String) (args : Nat)
    (st1 : Stage1Out) :
    ∃ extra : List Emit,
      (ms_sjoin_post env parv args st1).emits = st1.emits ++ extra := by
  unfold ms_sjoin_post
  split
  · exact ⟨_, rfl⟩
  · unfold ms_sjoin_loopres
    split
    · exact ⟨_, rfl⟩
    · split
      · exact ⟨_, rfl⟩
      · exact ⟨_, by rw [List.append_assoc]⟩

/-- C8: for every SJOIN naming a channel that did not previously exist
(the Channel Store lookup is empty, so `channel_make` runs), any
channel state the handler leaves in the store has its creation
timestamp set to the incoming timestamp value and its mode set to
exactly the incoming parsed mode, with no merge against any prior
state. -/
theorem sjoin_new_channel (tab : List ChanModeEntry) (env : SjoinEnv)
    (parv : List String) (m0 : Mode) (args : Nat) (c : Channel)
    (hib : env.ignore_bogus_ts = false)
    (hex : env.existing = none)
    (hparse : sjoin_parse_modes tab parv = some (m0, args))
    (hc : (ms_sjoin tab env parv).chan = some c) :
    c.creationtime = strtoNat (parv.getD 1 "") ∧ c.mode = m0 := by
  cases hname : channel_check_name (parv.getD 2 "") with
  | false =>
      unfold ms_sjoin at hc
      rw [hname] at hc
      simp [hex] at hc
  | true =>
      rw [ms_sjoin_eq_post tab env parv m0 args hname hparse] at hc
      have hst : sjoin_stage1 tab env (parv.getD 2 "") (parv.getD 3 "") m0
            (strtoNat (parv.getD 1 ""))
          = sjoin_stage1_core tab env (parv.getD 2 "") (parv.getD 3 "") m0
            (strtoNat (parv.getD 1 "")) true (channel_make (parv.getD 2 "")) := by
        unfold sjoin_stage1
        rw [hex]
      rw [hst] at hc
      have hchan : (sjoin_stage1_core tab env (parv.getD 2 "") (parv.getD 3 "")
            m0 (strtoNat (parv.getD 1 "")) true
            (channel_make (parv.getD 2 ""))).chan
          = { channel_make (parv.getD 2 "") with
              creationtime := strtoNat (parv.getD 1 ""), mode := m0 } :=
        st1_chan_fresh env (parv.getD 2 "") m0 (strtoNat (parv.getD 1 "")) hib
      refine ms_sjoin_post_chan env parv args _
        (fun ch => ch.creationtime = strtoNat (parv.getD 1 "") ∧ ch.mode = m0)
        ?_ ?_ c hc
      · intro d _ _
        rw [hchan]
        exact ⟨rfl, rfl⟩
      · rw [hchan]
        exact ⟨rfl, rfl⟩

theorem sjoin_new_channel_witness :
    (⟨"#test", 1000, ⟨0, 0, ""⟩, [⟨"alice", 0, false⟩], [], [], [], "", []⟩
        : Channel).creationtime = strtoNat "1000" ∧
    (⟨"#test", 1000, ⟨0, 0, ""⟩, [⟨"alice", 0, false⟩], [], [], [], "", []⟩
        : Channel).mode = ⟨0, 0, ""⟩ :=
  sjoin_new_channel cmode_tab
    ⟨false, false, "irc.remote", "1AA", "hub", false, "irc.me",
     [⟨"alice", "1AAAAAA01", "hub", ""⟩], none⟩
    ["x", "1000", "#test", "0", "1AAAAAA01"] ⟨0, 0, ""⟩ 0
    ⟨"#test", 1000, ⟨0, 0, ""⟩, [⟨"alice", 0, false⟩], [], [], [], "", []⟩
    rfl rfl (by decide) (by decide)

/-- C2: for every SJOIN on an existing channel whose incoming timestamp
is non-zero and strictly smaller than the existing non-zero timestamp
(with bogus-TS clamping off), any channel state the handler leaves in
the store has its creation timestamp equal to the incoming timestamp,
every member carried over from before the event (same nick) holds no
Operator/HalfOperator/Voice flag, and the ban, exception and
invite-exempt lists are empty. -/
theorem sjoin_ts_loss_state (tab : List ChanModeEntry) (env : SjoinEnv)
    (parv : List String) (m0 : Mode) (args : Nat) (c0 c : Channel)
    (hib : env.ignore_bogus_ts = false)
    (hex : env.existing = some c0)
    (hname : channel_check_name (parv.getD 2 "") = true)
    (hparse : sjoin_parse_modes tab parv = some (m0, args))
    (h0 : 0 < strtoNat (parv.getD 1 ""))
    (hlt : strtoNat (parv.getD 1 "") < c0.creationtime)
    (hc : (ms_sjoin tab env parv).chan = some c) :
    c.creationtime = strtoNat (parv.getD 1 "") ∧
    (∀ m ∈ c.members, m.name ∈ c0.members.map ChanMember.name →
      m.flags &&& (CHFL_CHANOP ||| CHFL_HALFOP ||| CHFL_VOICE) = 0) ∧
    c.banlist = [] ∧ c.exceptlist = [] ∧ c.invexlist = [] := by
  rw [ms_sjoin_eq_post tab env parv m0 args hname hparse] at hc
  have hst : sjoin_stage1 tab env (parv.getD 2 "") (parv.getD 3 "") m0
        (strtoNat (parv.getD 1 ""))
      = sjoin_stage1_core tab env (parv.getD 2 "") (parv.getD 3 "") m0
        (strtoNat (parv.getD 1 "")) false c0 := by
    unfold sjoin_stage1
    rw [hex]
  rw [hst] at hc
  have hchan : (sjoin_stage1_core tab env (parv.getD 2 "") (parv.getD 3 "")
        m0 (strtoNat (parv.getD 1 "")) false c0).chan
      = tsLossChan env.srcName (parv.getD 2 "") false
        { c0 with creationtime := strtoNat (parv.getD 1 ""),
                  mode := st1_mode env false c0 m0 (strtoNat (parv.getD 1 "")) } :=
    st1_chan_loss env (parv.getD 2 "") m0 (strtoNat (parv.getD 1 "")) c0 hib h0 hlt
  refine ms_sjoin_post_chan env parv args _
    (fun ch => ch.creationtime = strtoNat (parv.getD 1 "") ∧
      (∀ m ∈ ch.members, m.name ∈ c0.members.map ChanMember.name →
        m.flags &&& (CHFL_CHANOP ||| CHFL_HALFOP ||| CHFL_VOICE) = 0) ∧
      ch.banlist = [] ∧ ch.exceptlist = [] ∧ ch.invexlist = [])
    ?_ ?_ c hc
  · intro d hdn _
    rw [hchan] at hdn ⊢
    refine ⟨rfl, ?_, remove_ban_list_fst _ _, remove_ban_list_fst _ _,
      remove_ban_list_fst _ _⟩
    intro m hm hnm
    rcases List.mem_append.mp hm with hmem | hmem
    · exact tsLossChan_flags _ _ _ _ m hmem
    · exfalso
      have hno := hdn m hmem
      rw [tsLossChan_names] at hno
      exact hno hnm
  · rw [hchan]
    refine ⟨rfl, ?_, remove_ban_list_fst _ _, remove_ban_list_fst _ _,
      remove_ban_list_fst _ _⟩
    intro m hm _
    exact tsLossChan_flags _ _ _ _ m hm

theorem sjoin_ts_loss_state_witness :
    (⟨"#test", 500, ⟨0, 0, ""⟩, [⟨"bob", 0, false⟩], [], [], [], "", []⟩
        : Channel).creationtime = strtoNat "500" ∧
    (∀ m ∈ (⟨"#test", 500, ⟨0, 0, ""⟩, [⟨"bob", 0, false⟩], [], [], [], "", []⟩
        : Channel).members,
      m.name ∈ (⟨"#test", 1000, ⟨0, 0, ""⟩, [⟨"bob", 4, true⟩],
          [⟨"n", "u", "h", 5⟩], [], [], "old", ["guest"]⟩
        : Channel).members.map ChanMember.name →
      m.flags &&& (CHFL_CHANOP ||| CHFL_HALFOP ||| CHFL_VOICE) = 0) ∧
    (⟨"#test", 500, ⟨0, 0, ""⟩, [⟨"bob", 0, false⟩], [], [], [], "", []⟩
        : Channel).banlist = [] ∧
    (⟨"#test", 500, ⟨0, 0, ""⟩, [⟨"bob", 0, false⟩], [], [], [], "", []⟩
        : Channel).exceptlist = [] ∧
    (⟨"#test", 500, ⟨0, 0, ""⟩, [⟨"bob", 0, false⟩], [], [], [], "", []⟩
        : Channel).invexlist = [] :=
  sjoin_ts_loss_state cmode_tab
    ⟨false, false, "irc.remote", "1AA", "hub", false, "irc.me", [],
     some ⟨"#test", 1000, ⟨0, 0, ""⟩, [⟨"bob", 4, true⟩],
       [⟨"n", "u", "h", 5⟩], [], [], "old", ["guest"]⟩⟩
    ["x", "500", "#test", "0", ""] ⟨0, 0, ""⟩ 0
    ⟨"#test", 1000, ⟨0, 0, ""⟩, [⟨"bob", 4, true⟩],
     [⟨"n", "u", "h", 5⟩], [], [], "old", ["guest"]⟩
    ⟨"#test", 500, ⟨0, 0, ""⟩, [⟨"bob", 0, false⟩], [], [], [], "", []⟩
    rfl rfl (by decide) (by decide) (by decide) (by decide) (by decide)

/-- C4: for every SJOIN on an existing channel whose incoming timestamp
is non-zero and strictly greater than the existing non-zero timestamp
(with bogus-TS clamping off), any channel state the handler leaves in
the store keeps the existing creation timestamp unchanged, keeps the
existing mode (the incoming mode request is discarded), and every user
added from the incoming member list (any member not previously present)
joins with zero privilege flags even if its token carried sigils. -/
theorem sjoin_ts_win (tab : List ChanModeEntry) (env : SjoinEnv)
    (parv : List String) (m0 : Mode) (args : Nat) (c0 c : Channel)
    (hib : env.ignore_bogus_ts = false)
    (hex : env.existing = some c0)
    (hname : channel_check_name (parv.getD 2 "") = true)
    (hparse : sjoin_parse_modes tab parv = some (m0, args))
    (h0 : 0 < c0.creationtime)
    (hgt : c0.creationtime < strtoNat (parv.getD 1 ""))
    (hc : (ms_sjoin tab env parv).chan = some c) :
    c.creationtime = c0.creationtime ∧ c.mode = c0.mode ∧
    ∀ m ∈ c.members, m.name ∉ c0.members.map ChanMember.name →
      m.flags = 0 := by
  rw [ms_sjoin_eq_post tab env parv m0 args hname hparse] at hc
  have hst : sjoin_stage1 tab env (parv.getD 2 "") (parv.getD 3 "") m0
        (strtoNat (parv.getD 1 ""))
      = sjoin_stage1_core tab env (parv.getD 2 "") (parv.getD 3 "") m0
        (strtoNat (parv.getD 1 "")) false c0 := by
    unfold sjoin_stage1
    rw [hex]
  rw [hst] at hc
  have hchan : (sjoin_stage1_core tab env (parv.getD 2 "") (parv.getD 3 "")
        m0 (strtoNat (parv.getD 1 "")) false c0).chan = c0 :=
    st1_chan_win env (parv.getD 2 "") m0 (strtoNat (parv.getD 1 "")) c0 hib h0 hgt
  have hkn : (sjoin_stage1_core tab env (parv.getD 2 "") (parv.getD 3 "")
        m0 (strtoNat (parv.getD 1 "")) false c0).keep_new = false := by
    show (st1_d env false c0 (strtoNat (parv.getD 1 ""))).keep_new = false
    rw [st1_d_win env c0 (strtoNat (parv.getD 1 "")) hib h0 hgt]
  refine ms_sjoin_post_chan env parv args _
    (fun ch => ch.creationtime = c0.creationtime ∧ ch.mode = c0.mode ∧
      ∀ m ∈ ch.members, m.name ∉ c0.members.map ChanMember.name →
        m.flags = 0)
    ?_ ?_ c hc
  · intro d _ hdf
    have hd0 := hdf hkn
    rw [hchan]
    refine ⟨rfl, rfl, ?_⟩
    intro m hm hnm
    rcases List.mem_append.mp hm with hmem | hmem
    · exact absurd (List.mem_map_of_mem ChanMember.name hmem) hnm
    · exact hd0 m hmem
  · rw [hchan]
    refine ⟨rfl, rfl, ?_⟩
    intro m hm hnm
    exact absurd (List.mem_map_of_mem ChanMember.name hm) hnm

theorem sjoin_ts_win_witness :
    (⟨"#test", 100, ⟨0, 0, ""⟩, [⟨"bob", 4, false⟩, ⟨"alice", 0, false⟩],
        [], [], [], "", []⟩ : Channel).creationtime
      = (⟨"#test", 100, ⟨0, 0, ""⟩, [⟨"bob", 4, false⟩], [], [], [], "", []⟩
        : Channel).creationtime ∧
    (⟨"#test", 100, ⟨0, 0, ""⟩, [⟨"bob", 4, false⟩, ⟨"alice", 0, false⟩],
        [], [], [], "", []⟩ : Channel).mode
      = (⟨"#test", 100, ⟨0, 0, ""⟩, [⟨"bob", 4, false⟩], [], [], [], "", []⟩
        : Channel).mode ∧
    ∀ m ∈ (⟨"#test", 100, ⟨0, 0, ""⟩, [⟨"bob", 4, false⟩, ⟨"alice", 0, false⟩],
        [], [], [], "", []⟩ : Channel).members,
      m.name ∉ (⟨"#test", 100, ⟨0, 0, ""⟩, [⟨"bob", 4, false⟩], [], [], [], "",
        []⟩ : Channel).members.map ChanMember.name →
      m.flags = 0 :=
  sjoin_ts_win cmode_tab
    ⟨false, false, "irc.remote", "1AA", "hub", false, "irc.me",
     [⟨"alice", "1AAAAAA01", "hub", ""⟩],
     some ⟨"#test", 100, ⟨0, 0, ""⟩, [⟨"bob", 4, false⟩], [], [], [], "", []⟩⟩
    ["x", "1000", "#test", "0", "@1AAAAAA01"] ⟨0, 0, ""⟩ 0
    ⟨"#test", 100, ⟨0, 0, ""⟩, [⟨"bob", 4, false⟩], [], [], [], "", []⟩
    ⟨"#test", 100, ⟨0, 0, ""⟩, [⟨"bob", 4, false⟩, ⟨"alice", 0, false⟩],
     [], [], [], "", []⟩
    rfl rfl (by decide) (by decide) (by decide) (by decide) (by decide)

theorem tsLossEmits_topic_mem (hide srcHidden : Bool) (me src chn : String)
    (oldts newts : Nat) (c : Channel) (htop : c.topic ≠ "") :
    (⟨Dest.chanLocal, ":" ++ sjoin_servername hide srcHidden me src
      ++ " TOPIC " ++ chn ++ " :"⟩ : Emit)
      ∈ tsLossEmits hide srcHidden me src chn oldts newts c := by
  unfold tsLossEmits
  rw [if_pos htop]
  simp

/-- C10: for every SJOIN on an existing channel where the local side
loses TS arbitration (incoming timestamp non-zero and strictly smaller
than the existing non-zero timestamp, bogus-TS clamping off), beyond
the documented clearing: any channel state left in the store has an
empty topic, an empty pending-invite list, and a cleared ban cache on
every member carried over from before the event; and if the channel had
a non-empty topic, a channel-local TOPIC message clearing it is
emitted. -/
theorem sjoin_ts_loss_extras (tab : List ChanModeEntry) (env : SjoinEnv)
    (parv : List String) (m0 : Mode) (args : Nat) (c0 c : Channel)
    (hib : env.ignore_bogus_ts = false)
    (hex : env.existing = some c0)
    (hname : channel_check_name (parv.getD 2 "") = true)
    (hparse : sjoin_parse_modes tab parv = some (m0, args))
    (h0 : 0 < strtoNat (parv.getD 1 ""))
    (hlt : strtoNat (parv.getD 1 "") < c0.creationtime)
    (hc : (ms_sjoin tab env parv).chan = some c) :
    c.topic = "" ∧ c.invites = [] ∧
    (∀ m ∈ c.members, m.name ∈ c0.members.map ChanMember.name →
      m.banCached = false) ∧
    (c0.topic ≠ "" →
      ∃ e ∈ (ms_sjoin tab env parv).emits, e.dest = Dest.chanLocal ∧
        e.line = ":" ++ sjoin_servername env.hide_servers env.srcHidden
          env.meName env.srcName ++ " TOPIC " ++ parv.getD 2 "" ++ " :") := by
  rw [ms_sjoin_eq_post tab env parv m0 args hname hparse] at hc ⊢
  have hst : sjoin_stage1 tab env (parv.getD 2 "") (parv.getD 3 "") m0
        (strtoNat (parv.getD 1 ""))
      = sjoin_stage1_core tab env (parv.getD 2 "") (parv.getD 3 "") m0
        (strtoNat (parv.getD 1 "")) false c0 := by
    unfold sjoin_stage1
    rw [hex]
  rw [hst] at hc ⊢
  have hchan : (sjoin_stage1_core tab env (parv.getD 2 "") (parv.getD 3 "")
        m0 (strtoNat (parv.getD 1 "")) false c0).chan
      = tsLossChan env.srcName (parv.getD 2 "") false
        { c0 with creationtime := strtoNat (parv.getD 1 ""),
                  mode := st1_mode env false c0 m0 (strtoNat (parv.getD 1 "")) } :=
    st1_chan_loss env (parv.getD 2 "") m0 (strtoNat (parv.getD 1 "")) c0 hib h0 hlt
  have htri := ms_sjoin_post_chan env parv args
    (sjoin_stage1_core tab env (parv.getD 2 "") (parv.getD 3 "") m0
      (strtoNat (parv.getD 1 "")) false c0)
    (fun ch => ch.topic = "" ∧ ch.invites = [] ∧
      (∀ m ∈ ch.members, m.name ∈ c0.members.map ChanMember.name →
        m.banCached = false))
    (by
      intro d hdn _
      rw [hchan] at hdn ⊢
      refine ⟨rfl, rfl, ?_⟩
      intro m hm hnm
      rcases List.mem_append.mp hm with hmem | hmem
      · exact tsLossChan_banCached _ _ _ _ m hmem
      · exfalso
        have hno := hdn m hmem
        rw [tsLossChan_names] at hno
        exact hno hnm)
    (by
      rw [hchan]
      refine ⟨rfl, rfl, ?_⟩
      intro m hm _
      exact tsLossChan_banCached _ _ _ _ m hm)
    c hc
  refine ⟨htri.1, htri.2.1, htri.2.2, ?_⟩
  intro htop
  obtain ⟨extra, hextra⟩ := ms_sjoin_post_emits env parv args
    (sjoin_stage1_core tab env (parv.getD 2 "") (parv.getD 3 "") m0
      (strtoNat (parv.getD 1 "")) false c0)
  rw [hextra]
  have hCH : (st1_chan env (parv.getD 2 "") false c0 m0
      (strtoNat (parv.getD 1 ""))).name = parv.getD 2 "" := by
    rw [st1_chan_loss env (parv.getD 2 "") m0 (strtoNat (parv.getD 1 "")) c0
      hib h0 hlt]
    rfl
  have hmem : (⟨Dest.chanLocal, ":" ++ sjoin_servername env.hide_servers
      env.srcHidden env.meName env.srcName ++ " TOPIC " ++ parv.getD 2 ""
      ++ " :"⟩ : Emit)
      ∈ (sjoin_stage1_core tab env (parv.getD 2 "") (parv.getD 3 "") m0
        (strtoNat (parv.getD 1 "")) false c0).emits := by
    show _ ∈ st1_emits tab env (parv.getD 2 "") false c0 m0
      (strtoNat (parv.getD 1 ""))
    unfold st1_emits
    apply List.mem_append_left
    apply List.mem_append_right
    rw [st1_d_loss env c0 (strtoNat (parv.getD 1 "")) hib h0 hlt]
    rw [if_pos (show (⟨false, true, strtoNat (parv.getD 1 ""),
      strtoNat (parv.getD 1 "")⟩ : TsDec).keep_our = false from rfl)]
    rw [hCH]
    exact tsLossEmits_topic_mem _ _ _ _ _ _ _ _ htop
  exact ⟨_, List.mem_append_left extra hmem, rfl, rfl⟩

theorem sjoin_ts_loss_extras_witness :
    (⟨"#test", 500, ⟨0, 0, ""⟩, [⟨"bob", 0, false⟩], [], [], [], "", []⟩
        : Channel).topic = "" ∧
    (⟨"#test", 500, ⟨0, 0, ""⟩, [⟨"bob", 0, false⟩], [], [], [], "", []⟩
        : Channel).invites = [] ∧
    (∀ m ∈ (⟨"#test", 500, ⟨0, 0, ""⟩, [⟨"bob", 0, false⟩], [], [], [], "", []⟩
        : Channel).members,
      m.name ∈ (⟨"#test", 1000, ⟨0, 0, ""⟩, [⟨"bob", 4, true⟩],
          [⟨"n", "u", "h", 5⟩], [], [], "old", ["guest"]⟩
        : Channel).members.map ChanMember.name →
      m.banCached = false) ∧
    ((⟨"#test", 1000, ⟨0, 0, ""⟩, [⟨"bob", 4, true⟩],
        [⟨"n", "u", "h", 5⟩], [], [], "old", ["guest"]⟩
        : Channel).topic ≠ "" →
      ∃ e ∈ (ms_sjoin cmode_tab
        ⟨false, false, "irc.remote", "1AA", "hub", false, "irc.me", [],
         some ⟨"#test", 1000, ⟨0, 0, ""⟩, [⟨"bob", 4, true⟩],
           [⟨"n", "u", "h", 5⟩], [], [], "old", ["guest"]⟩⟩
        ["x", "500", "#test", "0", ""]).emits,
        e.dest = Dest.chanLocal ∧
        e.line = ":" ++ sjoin_servername false false "irc.me" "irc.remote"
          ++ " TOPIC " ++ "#test" ++ " :") :=
  sjoin_ts_loss_extras cmode_tab
    ⟨false, false, "irc.remote", "1AA", "hub", false, "irc.me", [],
     some ⟨"#test", 1000, ⟨0, 0, ""⟩, [⟨"bob", 4, true⟩],
       [⟨"n", "u", "h", 5⟩], [], [], "old", ["guest"]⟩⟩
    ["x", "500", "#test", "0", ""] ⟨0, 0, ""⟩ 0
    ⟨"#test", 1000, ⟨0, 0, ""⟩, [⟨"bob", 4, true⟩],
     [⟨"n", "u", "h", 5⟩], [], [], "old", ["guest"]⟩
    ⟨"#test", 500, ⟨0, 0, ""⟩, [⟨"bob", 0, false⟩], [], [], [], "", []⟩
    rfl rfl (by decide) (by decide) (by decide) (by decide) (by decide)

/-- C9 counterexample: a dispatcher-deliverable SJOIN (`parc = 5`, the
module's registered minimum) whose mode field carries `k` and whose
last argument is therefore consumed as the key, leaving no member-list
argument: the `parc < 5 + args` check at m_sjoin.c lines 119-122 (run
after the key argument is copied) makes the handler return before any
channel is looked up or created, WITHOUT emitting any message at all —
in particular no operator-visible notice, contradicting the claim that
every malformed SJOIN produces one. -/
theorem c9_counterexample :
    (ms_sjoin cmode_tab
      ⟨false, false, "irc.remote", "1AA", "hub", false, "irc.me", [], none⟩
      ["x", "100", "#test", "k", "secret"]).emits = [] ∧
    (ms_sjoin cmode_tab
      ⟨false, false, "irc.remote", "1AA", "hub", false, "irc.me", [], none⟩
      ["x", "100", "#test", "k", "secret"]).storeTouched = false ∧
    (ms_sjoin cmode_tab
      ⟨false, false, "irc.remote", "1AA", "hub", false, "irc.me", [], none⟩
      ["x", "100", "#test", "k", "secret"]).completed = false := by
  refine ⟨by decide, by decide, by decide⟩

/-- C9 (amended): every malformed SJOIN returns early without reaching
the Channel Store and without addressing the originating link (the
handler has no origin-directed send at all): an invalid or too-long
channel name aborts before the store with exactly one operator notice;
a `k` or `l` letter with too few remaining arguments aborts before the
store SILENTLY (no notice of any kind); an oversized prebuilt relay
header aborts the member loop with an operator notice, keeping the
already-reconciled channel state (everything mutated before the fault
stays). -/
theorem sjoin_malformed (tab : List ChanModeEntry) (env : SjoinEnv)
    (parv : List String) :
    (channel_check_name (parv.getD 2 "") = false →
      ms_sjoin tab env parv
        = ⟨false, env.existing,
           [⟨Dest.realops, "*** Too long or invalid channel name from "
             ++ env.srcName ++ ": " ++ parv.getD 2 ""⟩], false⟩) ∧
    (channel_check_name (parv.getD 2 "") = true →
      sjoin_parse_modes tab parv = none →
      ms_sjoin tab env parv = ⟨false, env.existing, [], false⟩) ∧
    (∀ (m0 : Mode) (args : Nat) (st1 : Stage1Out),
      channel_check_name (parv.getD 2 "") = true →
      sjoin_parse_modes tab parv = some (m0, args) →
      st1 = sjoin_stage1 tab env (parv.getD 2 "") (parv.getD 3 "") m0
        (strtoNat (parv.getD 1 "")) →
      (sjoin_hdr env.srcId st1.tstosend st1.chan.name st1.relayModebuf
        st1.relayParabuf).length
        ≥ IRCD_BUFSIZE - IDLEN - 2 - CMEMBER_STATUS_FLAGS_LEN - 1 →
      ms_sjoin tab env parv
        = ⟨true, some st1.chan,
           st1.emits ++ [⟨Dest.realops, "Long SJOIN from server: "
             ++ env.srcName ++ " (ignored)"⟩], false⟩) := by
  refine ⟨?_, ?_, ?_⟩
  · intro h
    unfold ms_sjoin
    rw [h]
    rfl
  · intro h hp
    unfold ms_sjoin
    rw [h, hp]
    rfl
  · intro m0 args st1 h hp hst hlen
    rw [ms_sjoin_eq_post tab env parv m0 args h hp, ← hst]
    unfold ms_sjoin_post
    rw [if_pos hlen]

theorem sjoin_malformed_witness :
    ms_sjoin cmode_tab
      ⟨false, false, "irc.remote", "1AA", "hub", false, "irc.me", [], none⟩
      ["x", "100", "badname", "0", ""]
      = ⟨false, none,
         [⟨Dest.realops, "*** Too long or invalid channel name from "
           ++ "irc.remote" ++ ": " ++ "badname"⟩], false⟩ :=
  (sjoin_malformed cmode_tab
    ⟨false, false, "irc.remote", "1AA", "hub", false, "irc.me", [], none⟩
    ["x", "100", "badname", "0", ""]).1 (by decide)
